import Mathlib

/-
Verification of the sensor-data reader (`python/sensor_daemon/reader.py`).

The development has two layers:

1. A model of the timestamp codec (`_timestamp_to_key` /
   `_key_to_timestamp`).  These go through Python floats
   (`int(timestamp.timestamp() * 1_000_000)` and
   `datetime.fromtimestamp(us / 1_000_000)`), so the model includes
   IEEE-754 binary64 round-to-nearest-even, represented exactly over
   integer fractions.

2. A model of the query layer (`SensorDataReader.get_recent_readings`,
   `get_readings_range`, `get_aggregates`, `get_database_info`).  The
   RocksDB store is modelled as a list of entries in ascending key order
   (RocksDB iteration order); keys are the 64-bit microsecond integers
   packed into the 8-byte big-endian key bytes (byte-lexicographic order
   of the packed keys agrees with numeric order, `packBE_lt_iff`).  A
   value is modelled by its protobuf decoding result: `some payload` when
   `SensorReading.ParseFromString` succeeds, `none` when it raises.
   Reading timestamps and the scan bounds go through the codec: a
   reading's timestamp is `_key_to_timestamp(key)` and the range scan
   seeks and stops at `_timestamp_to_key(start)` / `_timestamp_to_key(end)`,
   both of which are lossy.
-/

set_option maxRecDepth 100000
set_option exponentiation.threshold 600

namespace SensorReader

/-! ## Data model -/

/-- One decoded protobuf `SensorReading` payload.  Each measurement channel
is optional (`HasField` in `_parse_sensor_reading`); `quality_flags` is a
plain integer field that is always present. -/
structure Payload where
  co2_ppm : Option ℚ
  temperature_c : Option ℚ
  humidity_percent : Option ℚ
  quality_flags : ℕ
deriving DecidableEq

/-- One stored RocksDB entry: the 64-bit microsecond key and the protobuf
decoding outcome of its value bytes (`none` models a value on which
`ParseFromString` raises). -/
structure Entry where
  key : ℕ
  decode? : Option Payload
deriving DecidableEq

/-- A RocksDB store in iteration order: entries ascending by key. -/
abbrev Store := List Entry

/-- The dictionary built by `_parse_sensor_reading`: timestamp taken from
the key (not from the payload), measurement fields from the payload. -/
structure Reading where
  timestamp : ℕ
  co2_ppm : Option ℚ
  temperature_c : Option ℚ
  humidity_percent : Option ℚ
  quality_flags : ℕ
deriving DecidableEq

/-! ## Timestamp codec

Model of `_timestamp_to_key` and `_key_to_timestamp`.  Both go through
Python binary64 floats: `timestamp.timestamp()` returns the correctly
rounded double of the exact second count, the multiplication by `10**6`
rounds again, and `int()` truncates; `datetime.fromtimestamp` splits its
float argument with `modf`, multiplies the fractional part by `10**6` in
float arithmetic and rounds the product to whole microseconds with
round-half-even.  Binary64 round-to-nearest-even is modelled exactly on
integer fractions: a positive value `a / b` is scaled into the mantissa
range `[2^52, 2^53)` and rounded half-to-even, with correct rounding on
the normal range `(2^-200, 2^200)`, which contains every value these
conversions meet. -/

/-- Round-half-even of the fraction `a / b` (for `b > 0`) to an integer:
the IEEE-754 and CPython tie-breaking rule. -/
def rheZ (a : ℤ) (b : ℕ) : ℤ :=
  let n := a / (b : ℤ)
  let r := a - n * (b : ℤ)
  if 2 * r < (b : ℤ) then n
  else if (b : ℤ) < 2 * r then n + 1
  else if n % 2 = 0 then n else n + 1

/-- Binary exponent search: the largest `k ≤ fuel` with
`2 ^ (k - 200) ≤ a / b`, stated as `2 ^ k * b ≤ 2 ^ 200 * a`. -/
def eSearchN (a b : ℕ) : ℕ → ℕ
  | 0 => 0
  | k + 1 => if 2 ^ (k + 1) * b ≤ 2 ^ 200 * a then k + 1 else eSearchN a b k

/-- Round the fraction `a / b` (`b > 0`) to the nearest binary64 value,
ties to even, returned as an exact integer fraction `(num, den)`.
Nonpositive inputs (only `0` occurs in the pipeline) map to `0`. -/
def rndZ (a : ℤ) (b : ℕ) : ℤ × ℕ :=
  if a ≤ 0 then (0, 1)
  else
    let e : ℤ := (eSearchN a.toNat b 400 : ℤ) - 200
    if 52 ≤ e then
      (rheZ a (b * 2 ^ (e - 52).toNat) * ((2 ^ (e - 52).toNat : ℕ) : ℤ), 1)
    else
      (rheZ (a * ((2 ^ (52 - e).toNat : ℕ) : ℤ)) b, 2 ^ (52 - e).toNat)

/-- Model of `int(timestamp.timestamp() * 1_000_000)` for the aware
datetime lying exactly `n` microseconds after the Unix epoch:
`timestamp()` is the correctly rounded double of `n / 10^6` (CPython
`timedelta.total_seconds` divides exact integers in float arithmetic),
the product with `10^6` is rounded again, and `int()` truncates toward
zero (= floor, as the value is nonnegative). -/
def pyEncodeUs (n : ℕ) : ℤ :=
  let s := rndZ n 1000000
  let p := rndZ (s.1 * 1000000) s.2
  p.1 / (p.2 : ℤ)

/-- Model of `datetime.fromtimestamp(m / 1_000_000, tz=timezone.utc)`,
reduced to the microsecond count of the result.  The float argument is
the correctly rounded double of `m / 10^6`.  CPython then splits it with
`modf` into integer part and fractional part (both exact), multiplies the
fractional part by `10^6` in float arithmetic (one more rounding), rounds
that product to an integer with round-half-even, and on overflow of the
microsecond field carries one second; the carry does not change the value
`seconds * 10^6 + microseconds`, so it is folded into the sum. -/
def pyDecodeUs (m : ℕ) : ℤ :=
  let x := rndZ m 1000000
  let y := rndZ ((x.1 % (x.2 : ℤ)) * 1000000) x.2
  x.1 / (x.2 : ℤ) * 1000000 + rheZ y.1 y.2

/-- Big-endian base-256 digits of `m`, `k` bytes wide (the recursive form
of `struct.pack`). -/
def packBE : ℕ → ℕ → List ℕ
  | 0, _ => []
  | k + 1, m => m / 256 ^ k :: packBE k (m % 256 ^ k)

/-- Model of `struct.pack('>Q', m)`: the 8 big-endian bytes of `m`. -/
def packBE64 (m : ℕ) : List ℕ :=
  packBE 8 m

/-- Model of `struct.unpack('>Q', key)[0]`. -/
def unpackBE64 (key : List ℕ) : ℕ :=
  key.foldl (fun acc d => acc * 256 + d) 0

/-- Model of `SensorDataReader._timestamp_to_key` on the datetime exactly
`n` microseconds after the epoch. -/
def timestamp_to_key (n : ℕ) : List ℕ :=
  packBE64 (pyEncodeUs n).toNat

/-- Model of `SensorDataReader._key_to_timestamp`, as the microsecond
count of the returned datetime. -/
def key_to_timestamp (key : List ℕ) : ℤ :=
  pyDecodeUs (unpackBE64 key)

/-- The last instant `datetime` can represent (9999-12-31 23:59:59.999999
UTC) as a microsecond count; `datetime.fromtimestamp` raises for keys
decoding beyond it. -/
def maxDatetimeUs : ℕ := 253402300799999999

/-- Model of `_parse_sensor_reading` on one entry, as run inside the
per-record `try` of both scans: the entry is skipped when the protobuf
decode raises, and also when `_key_to_timestamp` raises because the key
decodes beyond `datetime`'s year range; otherwise the reading's timestamp
is the decoded key (`_key_to_timestamp` goes through a float and is
lossy). -/
def parseReading (e : Entry) : Option Reading :=
  match e.decode? with
  | none => none
  | some p =>
    if pyDecodeUs e.key ≤ (maxDatetimeUs : ℤ) then
      some ⟨(pyDecodeUs e.key).toNat, p.co2_ppm, p.temperature_c,
        p.humidity_percent, p.quality_flags⟩
    else none

/-- The store invariant: RocksDB iterates keys in strictly ascending
byte-lexicographic (= numeric, for fixed-width big-endian) order. -/
def StoreSorted (s : Store) : Prop :=
  List.Pairwise (fun e₁ e₂ => e₁.key < e₂.key) s

instance (s : Store) : Decidable (StoreSorted s) := by
  unfold StoreSorted; infer_instance

/-- Error outcomes of the reader methods: `invalidArgument` models
`ValueError`, `databaseClosed` models `RuntimeError("Database is not
open")`, `runtimeError` models the other wrapped `RuntimeError`s. -/
inductive QueryError where
  | invalidArgument
  | databaseClosed
  | runtimeError
deriving DecidableEq

instance {ε α : Type _} [DecidableEq ε] [DecidableEq α] :
    DecidableEq (Except ε α) := fun x y =>
  match x, y with
  | .error a, .error b =>
    if h : a = b then .isTrue (congrArg Except.error h)
    else .isFalse fun hh => h (Except.error.inj hh)
  | .ok a, .ok b =>
    if h : a = b then .isTrue (congrArg Except.ok h)
    else .isFalse fun hh => h (Except.ok.inj hh)
  | .error _, .ok _ => .isFalse Except.noConfusion
  | .ok _, .error _ => .isFalse Except.noConfusion

/-! ## get_recent_readings -/

/-- The reverse-iteration loop of `get_recent_readings`, expressed on the
reversed entry list: collect readings while `it.valid() and collected <
count`; a corrupt entry is skipped and does not increment `collected`. -/
def collectBackward : List Entry → ℕ → List Reading
  | [], _ => []
  | _ :: _, 0 => []
  | e :: rest, n + 1 =>
    match parseReading e with
    | some r => r :: collectBackward rest n
    | none => collectBackward rest (n + 1)

/-- Model of `SensorDataReader.get_recent_readings`.  `db = none` models a
closed reader (`self._db` is `None`).  The count check precedes the
database check, as in the source. -/
def get_recent_readings (db : Option Store) (count : ℤ) :
    Except QueryError (List Reading) :=
  if count ≤ 0 then .error .invalidArgument
  else
    match db with
    | none => .error .databaseClosed
    | some s => .ok (collectBackward s.reverse count.toNat).reverse

/-! ## get_readings_range -/

/-- The forward scan loop of `get_readings_range`: starting from the seek
position, stop at the first key strictly beyond `endKey`, skip entries
that fail to decode. -/
def scanUpTo (endKey : ℕ) : List Entry → List Reading
  | [] => []
  | e :: rest =>
    if endKey < e.key then []
    else
      match parseReading e with
      | some r => r :: scanUpTo endKey rest
      | none => scanUpTo endKey rest

/-- Model of `it.seek(start_key)`: position at the first entry whose key is
at least `k`. -/
def seekGE (k : ℕ) (s : Store) : Store :=
  s.dropWhile fun e => e.key < k

/-- Model of `SensorDataReader.get_readings_range` on the datetimes
exactly `start` and `end_` microseconds after the epoch.  The
`start >= end` check on the exact datetimes precedes the database check,
as in the source; the seek position and the stop bound are the
float-encoded keys `_timestamp_to_key(start)` / `_timestamp_to_key(end)`
(compared numerically, which agrees with the byte order of the packed
keys). -/
def get_readings_range (db : Option Store) (start end_ : ℕ) :
    Except QueryError (List Reading) :=
  if end_ ≤ start then .error .invalidArgument
  else
    match db with
    | none => .error .databaseClosed
    | some s =>
      .ok (scanUpTo (pyEncodeUs end_).toNat (seekGE (pyEncodeUs start).toNat s))

/-! ## get_aggregates -/

/-- Per-field aggregate cell of one resampled row: `count` of present
values, and `mean`/`min`/`max` which are `none` (pandas `NaN`) when no
value is present. -/
structure Stats where
  mean : Option ℚ
  min : Option ℚ
  max : Option ℚ
  count : ℕ
deriving DecidableEq

/-- One row of the aggregated frame after `reset_index`: the bucket start
in the `timestamp` column, then the flattened per-field statistics. -/
structure BucketRow where
  bucket_start : ℕ
  co2_ppm : Stats
  temperature_c : Stats
  humidity_percent : Stats
deriving DecidableEq

/-- Aggregation of one field over the readings falling in one bucket:
pandas `mean`/`min`/`max` skip missing values and `count` counts the
present ones. -/
def fieldStats (vals : List ℚ) : Stats :=
  { mean := if vals.length = 0 then none else some (vals.sum / vals.length)
    min := vals.min?
    max := vals.max?
    count := vals.length }

/-- Number of microseconds in one day. -/
def dayUs : ℕ := 86400000000

/-- The resampling origin used by pandas `DataFrame.resample` with its
default `origin='start_day'`: midnight (UTC) of the day of the first
index value. -/
def originOf (ts0 : ℕ) : ℕ := ts0 / dayUs * dayUs

/-- Model of `df.resample(interval).agg({field: ['mean','min','max','count']})`
followed by column flattening and `reset_index`, for a non-empty
chronologically ordered reading list and a fixed-length interval of `Δ`
microseconds.  Bins are left-closed, labelled by their left edge, anchored
at `origin='start_day'`, and emitted contiguously from the bin of the
first reading to the bin of the last one (empty bins included). -/
def resampleAgg (r0 : Reading) (rs : List Reading) (Δ : ℕ) : List BucketRow :=
  let all := r0 :: rs
  let origin := originOf r0.timestamp
  let binOf : ℕ → ℕ := fun t => (t - origin) / Δ
  let k0 := binOf r0.timestamp
  let k1 := binOf (all.getLast (by simp [all])).timestamp
  (List.range (k1 - k0 + 1)).map fun i =>
    let inBin := all.filter fun r => binOf r.timestamp = k0 + i
    { bucket_start := origin + (k0 + i) * Δ
      co2_ppm := fieldStats (inBin.filterMap Reading.co2_ppm)
      temperature_c := fieldStats (inBin.filterMap Reading.temperature_c)
      humidity_percent := fieldStats (inBin.filterMap Reading.humidity_percent) }

/-- The cells of one output row as seen by `dropna`: the `timestamp`
column and the twelve flattened statistics columns.  `count` cells are
integers and never null; `mean`/`min`/`max` cells are null when the bin
holds no value for that field. -/
def rowCells (r : BucketRow) : List (Option ℚ) :=
  [some (r.bucket_start : ℚ),
   r.co2_ppm.mean, r.co2_ppm.min, r.co2_ppm.max, some (r.co2_ppm.count : ℚ),
   r.temperature_c.mean, r.temperature_c.min, r.temperature_c.max,
   some (r.temperature_c.count : ℚ),
   r.humidity_percent.mean, r.humidity_percent.min, r.humidity_percent.max,
   some (r.humidity_percent.count : ℚ)]

/-- Model of `aggregated.dropna(how='all')`: keep every row in which at
least one cell is non-null. -/
def dropnaAll (rows : List BucketRow) : List BucketRow :=
  rows.filter fun r => !(rowCells r).all Option.isNone

/-- Model of `SensorDataReader.get_aggregates` with the interval given as
a signed count of microseconds (`"1H"` is 3600000000).  The source
validates only `start >= end`; it then fetches the raw range (store
access), returns an empty frame for an empty range, and only inside the
final `try` block does pandas reject a non-positive resampling interval,
which the `except` clause wraps into a `RuntimeError`. -/
def get_aggregates (db : Option Store) (start end_ : ℕ) (interval : ℤ) :
    Except QueryError (List BucketRow) :=
  if end_ ≤ start then .error .invalidArgument
  else
    match get_readings_range db start end_ with
    | .error e => .error e
    | .ok [] => .ok []
    | .ok (r0 :: rs) =>
      if interval ≤ 0 then .error .runtimeError
      else .ok (dropnaAll (resampleAgg r0 rs interval.toNat))

/-! ## get_database_info -/

/-- Result of `get_database_info`; `total_records` is the forward walk
count capped at 10000, `capped` records whether the cap was hit (the
`f"{count}+"` branch).  The `database_path` string is omitted. -/
structure DatabaseInfo where
  total_records : ℕ
  capped : Bool
  earliest_timestamp : Option ℕ
  latest_timestamp : Option ℕ
deriving DecidableEq

/-- Model of `SensorDataReader.get_database_info`: the closed check comes
first; an empty store short-circuits; otherwise the first and last keys
are decoded with `_key_to_timestamp` (a decode raising inside the `try`
surfaces as a wrapped `RuntimeError`) and a capped forward walk gives the
count. -/
def get_database_info (db : Option Store) : Except QueryError DatabaseInfo :=
  match db with
  | none => .error .databaseClosed
  | some [] => .ok ⟨0, false, none, none⟩
  | some (e :: rest) =>
    if pyDecodeUs e.key ≤ (maxDatetimeUs : ℤ) ∧
        pyDecodeUs ((e :: rest).getLast (by simp)).key ≤ (maxDatetimeUs : ℤ) then
      .ok ⟨Nat.min (e :: rest).length 10000, 10000 ≤ (e :: rest).length,
        some (pyDecodeUs e.key).toNat,
        some (pyDecodeUs ((e :: rest).getLast (by simp)).key).toNat⟩
    else .error .runtimeError

/-! ## Specification-side descriptions of the scan results -/

/-- The readings present in the store, in store order: one per entry whose
value decodes. -/
def storeReadings (s : Store) : List Reading :=
  s.filterMap parseReading

/-- The last `n` elements of a list. -/
def lastN (n : ℕ) (l : List α) : List α :=
  l.drop (l.length - n)

/-- The store with the corrupt (undecodable) entries removed. -/
def dropCorrupt (s : Store) : Store :=
  s.filter fun e => e.decode?.isSome

/-- The readings of the store whose key lies in the inclusive range
`[a, b]`, in store order. -/
def rangeReadings (s : Store) (a b : ℕ) : List Reading :=
  (s.filter fun e => decide (a ≤ e.key ∧ e.key ≤ b)).filterMap parseReading

/-- Strict chronological order of a reading sequence. -/
def Chrono (rs : List Reading) : Prop :=
  List.Pairwise (fun r₁ r₂ => r₁.timestamp < r₂.timestamp) rs

instance (rs : List Reading) : Decidable (Chrono rs) := by
  unfold Chrono; infer_instance

/-- Non-strict chronological order of a reading sequence (the order the
scans actually guarantee, since distinct keys can decode to the same
datetime). -/
def ChronoLe (rs : List Reading) : Prop :=
  List.Pairwise (fun r₁ r₂ => r₁.timestamp ≤ r₂.timestamp) rs

instance (rs : List Reading) : Decidable (ChronoLe rs) := by
  unfold ChronoLe; infer_instance

/-- A bucket row in which every measurement field has zero observed
readings (the all-empty bucket the spec says must be suppressed). -/
def allCountsZero (r : BucketRow) : Bool :=
  r.co2_ppm.count == 0 && r.temperature_c.count == 0 &&
    r.humidity_percent.count == 0

/-- The bucket boundaries of an aggregate result (empty on error). -/
def bucketStarts (x : Except QueryError (List BucketRow)) : List ℕ :=
  match x with
  | .ok rows => rows.map BucketRow.bucket_start
  | .error _ => []


/-! ## Concrete stores used as counterexamples and witnesses -/

/-- A payload carrying only a CO₂ value. -/
def co2Payload (v : ℚ) : Payload :=
  ⟨some v, none, none, 0⟩

/-- Store for the empty-bucket counterexample: decodable readings at
`t = 0` and `t = 9000` s leave the 1-hour bucket `[3600 s, 7200 s)`
without any reading. -/
def c2Store : Store :=
  [⟨0, some (co2Payload 10)⟩, ⟨9000000000, some (co2Payload 20)⟩]

/-- A one-entry store with a decodable reading at `t = 0`. -/
def oneStore : Store :=
  [⟨0, some (co2Payload 10)⟩]

/-- Store for the bucket-anchoring counterexample: a single reading one
minute after the midnight that opens day 1. -/
def c5Store : Store :=
  [⟨86460000000, some (co2Payload 10)⟩]

/-- A store mixing decodable and corrupt entries. -/
def mixedStore : Store :=
  [⟨5, some (co2Payload 1)⟩, ⟨10, none⟩, ⟨15, some (co2Payload 2)⟩,
   ⟨20, none⟩, ⟨25, some (co2Payload 3)⟩]

/-- Store for the range-bounds counterexample: one decodable reading at
key `10^17` microseconds. -/
def c4Store : Store :=
  [⟨10 ^ 17, some (co2Payload 1)⟩]

/-- Store for the strict-order counterexample: two decodable readings
whose keys, `10^17 + 8` and `10^17 + 15` microseconds, divide to the same
float and hence decode to the same datetime. -/
def c7Store : Store :=
  [⟨10 ^ 17 + 8, some (co2Payload 1)⟩, ⟨10 ^ 17 + 15, some (co2Payload 2)⟩]

/-! ## Codec lemmas: round-half-even -/

theorem rheZ_ge (a : ℤ) (b : ℕ) : a / (b : ℤ) ≤ rheZ a b := by
  simp only [rheZ]
  split_ifs <;> omega

theorem rheZ_le (a : ℤ) (b : ℕ) : rheZ a b ≤ a / (b : ℤ) + 1 := by
  simp only [rheZ]
  split_ifs <;> omega

theorem floor_div_int (a : ℤ) (b : ℕ) : a / (b : ℤ) = ⌊(a : ℚ)/(b : ℚ)⌋ :=
  (Rat.floor_intCast_div_natCast a b).symm

theorem frac_lt_half_iff {a : ℤ} {b : ℕ} (hb : 0 < b) :
    (2 * (a - a / (b : ℤ) * (b : ℤ)) < (b : ℤ))
      ↔ (a : ℚ)/(b : ℚ) - ⌊(a : ℚ)/(b : ℚ)⌋ < 1/2 := by
  have hbQ : (0 : ℚ) < (b : ℚ) := by exact_mod_cast hb
  have hbne : (b : ℚ) ≠ 0 := ne_of_gt hbQ
  rw [floor_div_int a b]
  set q := (a : ℚ)/(b : ℚ) with hq
  have ha : (a : ℚ) = q * (b : ℚ) := by rw [hq, div_mul_cancel₀ _ hbne]
  constructor
  · intro hZ
    have hQ : ((2 * (a - ⌊q⌋ * (b : ℤ)) : ℤ) : ℚ) < ((b : ℤ) : ℚ) := by
      exact_mod_cast hZ
    push_cast at hQ
    rw [ha] at hQ
    have h2 : (2 * (q - (⌊q⌋ : ℚ))) * (b : ℚ) < 1 * (b : ℚ) := by
      ring_nf
      ring_nf at hQ
      linarith
    have h3 := (mul_lt_mul_right hbQ).mp h2
    linarith
  · intro h
    have h2 : (2 * (q - (⌊q⌋ : ℚ))) * (b : ℚ) < 1 * (b : ℚ) :=
      (mul_lt_mul_right hbQ).mpr (by linarith)
    have hQ : 2 * ((a : ℚ) - (⌊q⌋ : ℚ) * (b : ℚ)) < (b : ℚ) := by
      rw [ha]
      ring_nf
      ring_nf at h2
      linarith
    exact_mod_cast hQ

theorem half_lt_frac_iff {a : ℤ} {b : ℕ} (hb : 0 < b) :
    ((b : ℤ) < 2 * (a - a / (b : ℤ) * (b : ℤ)))
      ↔ 1/2 < (a : ℚ)/(b : ℚ) - ⌊(a : ℚ)/(b : ℚ)⌋ := by
  have hbQ : (0 : ℚ) < (b : ℚ) := by exact_mod_cast hb
  have hbne : (b : ℚ) ≠ 0 := ne_of_gt hbQ
  rw [floor_div_int a b]
  set q := (a : ℚ)/(b : ℚ) with hq
  have ha : (a : ℚ) = q * (b : ℚ) := by rw [hq, div_mul_cancel₀ _ hbne]
  constructor
  · intro hZ
    have hQ : ((b : ℤ) : ℚ) < ((2 * (a - ⌊q⌋ * (b : ℤ)) : ℤ) : ℚ) := by
      exact_mod_cast hZ
    push_cast at hQ
    rw [ha] at hQ
    have h2 : 1 * (b : ℚ) < (2 * (q - (⌊q⌋ : ℚ))) * (b : ℚ) := by
      ring_nf
      ring_nf at hQ
      linarith
    have h3 := (mul_lt_mul_right hbQ).mp h2
    linarith
  · intro h
    have h2 : 1 * (b : ℚ) < (2 * (q - (⌊q⌋ : ℚ))) * (b : ℚ) :=
      (mul_lt_mul_right hbQ).mpr (by linarith)
    have hQ : (b : ℚ) < 2 * ((a : ℚ) - (⌊q⌋ : ℚ) * (b : ℚ)) := by
      rw [ha]
      ring_nf
      ring_nf at h2
      linarith
    exact_mod_cast hQ

theorem rheZ_down_of {a : ℤ} {b : ℕ} (hb : 0 < b)
    (h : (a : ℚ)/(b : ℚ) - ⌊(a : ℚ)/(b : ℚ)⌋ < 1/2) :
    rheZ a b = a / (b : ℤ) := by
  simp only [rheZ]
  rw [if_pos ((frac_lt_half_iff hb).mpr h)]

theorem rheZ_up_of {a : ℤ} {b : ℕ} (hb : 0 < b)
    (h : 1/2 < (a : ℚ)/(b : ℚ) - ⌊(a : ℚ)/(b : ℚ)⌋) :
    rheZ a b = a / (b : ℤ) + 1 := by
  simp only [rheZ]
  have h1 : ¬ (2 * (a - a / (b : ℤ) * (b : ℤ)) < (b : ℤ)) := by
    rw [frac_lt_half_iff hb]
    linarith
  rw [if_neg h1, if_pos ((half_lt_frac_iff hb).mpr h)]

theorem rheZ_tie_of {a : ℤ} {b : ℕ} (hb : 0 < b)
    (h : (a : ℚ)/(b : ℚ) - ⌊(a : ℚ)/(b : ℚ)⌋ = 1/2) :
    rheZ a b = if a / (b : ℤ) % 2 = 0 then a / (b : ℤ) else a / (b : ℤ) + 1 := by
  simp only [rheZ]
  have h1 : ¬ (2 * (a - a / (b : ℤ) * (b : ℤ)) < (b : ℤ)) := by
    rw [frac_lt_half_iff hb]
    linarith
  have h2 : ¬ ((b : ℤ) < 2 * (a - a / (b : ℤ) * (b : ℤ))) := by
    rw [half_lt_frac_iff hb]
    linarith
  rw [if_neg h1, if_neg h2]

theorem rheZ_mono {a1 a2 : ℤ} {b1 b2 : ℕ} (hb1 : 0 < b1) (hb2 : 0 < b2)
    (h : (a1 : ℚ)/(b1 : ℚ) ≤ (a2 : ℚ)/(b2 : ℚ)) : rheZ a1 b1 ≤ rheZ a2 b2 := by
  have hfl1 := floor_div_int a1 b1
  have hfl2 := floor_div_int a2 b2
  have hn : a1 / (b1 : ℤ) ≤ a2 / (b2 : ℤ) := by
    rw [hfl1, hfl2]
    exact Int.floor_le_floor h
  rcases lt_or_le (a1 / (b1 : ℤ)) (a2 / (b2 : ℤ)) with hlt | hge
  · have hu := rheZ_le a1 b1
    have hl := rheZ_ge a2 b2
    omega
  · have heqn : a1 / (b1 : ℤ) = a2 / (b2 : ℤ) := le_antisymm hn hge
    have hfeq : ((⌊(a1 : ℚ)/(b1 : ℚ)⌋ : ℚ)) = (⌊(a2 : ℚ)/(b2 : ℚ)⌋ : ℚ) := by
      rw [← hfl1, ← hfl2]
      exact_mod_cast heqn
    have hfle : (a1 : ℚ)/(b1 : ℚ) - ⌊(a1 : ℚ)/(b1 : ℚ)⌋
        ≤ (a2 : ℚ)/(b2 : ℚ) - ⌊(a2 : ℚ)/(b2 : ℚ)⌋ := by
      rw [hfeq]
      linarith
    rcases lt_trichotomy ((a1 : ℚ)/(b1 : ℚ) - ⌊(a1 : ℚ)/(b1 : ℚ)⌋) (1/2)
      with hf1 | hf1 | hf1
    · rw [rheZ_down_of hb1 hf1]
      have := rheZ_ge a2 b2
      omega
    · rcases lt_trichotomy ((a2 : ℚ)/(b2 : ℚ) - ⌊(a2 : ℚ)/(b2 : ℚ)⌋) (1/2)
        with hf2 | hf2 | hf2
      · exact absurd (by linarith : (1:ℚ)/2 < 1/2) (by norm_num)
      · rw [rheZ_tie_of hb1 hf1, rheZ_tie_of hb2 hf2, heqn]
      · rw [rheZ_up_of hb2 hf2]
        have := rheZ_le a1 b1
        omega
    · have hf2 : 1/2 < (a2 : ℚ)/(b2 : ℚ) - ⌊(a2 : ℚ)/(b2 : ℚ)⌋ := by linarith
      rw [rheZ_up_of hb1 hf1, rheZ_up_of hb2 hf2]
      omega

/-! ## Codec lemmas: exponent search and binary64 rounding -/

theorem eSearchN_holds {a b : ℕ} (h0 : b ≤ 2 ^ 200 * a) :
    ∀ K, 2 ^ eSearchN a b K * b ≤ 2 ^ 200 * a := by
  intro K
  induction K with
  | zero => simpa [eSearchN] using h0
  | succ K ih =>
    by_cases hc : 2 ^ (K + 1) * b ≤ 2 ^ 200 * a
    · simp only [eSearchN, if_pos hc]
      exact hc
    · simp only [eSearchN, if_neg hc]
      exact ih

theorem eSearchN_succ_fails {a b : ℕ} :
    ∀ K, ¬ (2 ^ (K + 1) * b ≤ 2 ^ 200 * a) →
      ¬ (2 ^ (eSearchN a b K + 1) * b ≤ 2 ^ 200 * a) := by
  intro K
  induction K with
  | zero =>
    intro h
    simpa [eSearchN] using h
  | succ K ih =>
    intro h
    by_cases hc : 2 ^ (K + 1) * b ≤ 2 ^ 200 * a
    · simp only [eSearchN, if_pos hc]
      exact h
    · simp only [eSearchN, if_neg hc]
      exact ih hc

theorem cond_iff {a b : ℕ} (ha : 0 < a) (hb : 0 < b) (k : ℕ) :
    (2 ^ k * b ≤ 2 ^ 200 * a) ↔ (2:ℚ) ^ ((k : ℤ) - 200) ≤ (a : ℚ)/(b : ℚ) := by
  have hbQ : (0:ℚ) < (b : ℚ) := by exact_mod_cast hb
  have h2 : ((2:ℚ) ^ ((k : ℤ) - 200)) = (2:ℚ) ^ (k : ℕ) / (2:ℚ) ^ (200 : ℕ) := by
    rw [show ((k : ℤ) - 200) = ((k : ℤ) - ((200 : ℕ) : ℤ)) by norm_num,
      zpow_sub₀ (by norm_num : (2:ℚ) ≠ 0), zpow_natCast, zpow_natCast]
  rw [h2, div_le_div_iff (by positivity) hbQ]
  constructor
  · intro h
    have hc : ((2 ^ k * b : ℕ) : ℚ) ≤ ((2 ^ 200 * a : ℕ) : ℚ) := by exact_mod_cast h
    push_cast at hc
    linarith
  · intro h
    have hc : ((2 ^ k * b : ℕ) : ℚ) ≤ ((2 ^ 200 * a : ℕ) : ℚ) := by
      push_cast
      linarith
    exact_mod_cast hc

theorem eOf_spec {a b : ℕ} (ha : 0 < a) (hb : 0 < b)
    (hlow : (2:ℚ) ^ (-200 : ℤ) ≤ (a : ℚ)/(b : ℚ))
    (hhigh : (a : ℚ)/(b : ℚ) < (2:ℚ) ^ (200 : ℤ)) :
    (2:ℚ) ^ ((eSearchN a b 400 : ℤ) - 200) ≤ (a : ℚ)/(b : ℚ) ∧
    (a : ℚ)/(b : ℚ) < (2:ℚ) ^ ((eSearchN a b 400 : ℤ) - 200 + 1) := by
  have h00 : (2:ℚ) ^ (((0 : ℕ) : ℤ) - 200) ≤ (a : ℚ)/(b : ℚ) := by
    rw [show (((0 : ℕ) : ℤ) - 200) = (-200 : ℤ) by norm_num]
    exact hlow
  have h0 : b ≤ 2 ^ 200 * a := by
    have hc := (cond_iff ha hb 0).mpr h00
    simpa using hc
  have h401 : ¬ (2 ^ (400 + 1) * b ≤ 2 ^ 200 * a) := by
    rw [cond_iff ha hb 401]
    intro hcon
    have hmono : (2:ℚ) ^ (200 : ℤ) ≤ (2:ℚ) ^ (((401 : ℕ) : ℤ) - 200) :=
      zpow_le_zpow_right₀ (by norm_num) (by norm_num)
    linarith
  have hE1 := eSearchN_holds h0 400
  have hE2 := eSearchN_succ_fails 400 h401
  constructor
  · exact (cond_iff ha hb _).mp hE1
  · have hnot := (not_iff_not.mpr (cond_iff ha hb (eSearchN a b 400 + 1))).mp hE2
    have h' := not_le.mp hnot
    convert h' using 2
    push_cast
    ring

theorem natPow_cast_zpow (k : ℤ) (hk : 0 ≤ k) :
    ((2 ^ k.toNat : ℕ) : ℚ) = (2:ℚ) ^ k := by
  have h1 : ((2 ^ k.toNat : ℕ) : ℚ) = (2:ℚ) ^ k.toNat := by push_cast; rfl
  rw [h1, ← zpow_natCast (2:ℚ) k.toNat, Int.toNat_of_nonneg hk]

theorem rheZ_mantissa_bounds {x : ℤ} {c : ℕ}
    (hlo : (2:ℚ) ^ (52 : ℤ) ≤ (x : ℚ)/(c : ℚ))
    (hhi : (x : ℚ)/(c : ℚ) < (2:ℚ) ^ (53 : ℤ)) :
    (2 ^ 52 : ℤ) ≤ rheZ x c ∧ rheZ x c ≤ 2 ^ 53 := by
  have hfl := floor_div_int x c
  have h1 : (2 ^ 52 : ℤ) ≤ ⌊(x : ℚ)/(c : ℚ)⌋ := by
    apply Int.le_floor.mpr
    calc ((2 ^ 52 : ℤ) : ℚ) = (2:ℚ) ^ (52 : ℤ) := by push_cast; norm_num
      _ ≤ _ := hlo
  have h2 : ⌊(x : ℚ)/(c : ℚ)⌋ < 2 ^ 53 := by
    apply Int.floor_lt.mpr
    calc (x : ℚ)/(c : ℚ) < (2:ℚ) ^ (53 : ℤ) := hhi
      _ = ((2 ^ 53 : ℤ) : ℚ) := by push_cast; norm_num
  have h3 := rheZ_ge x c
  have h4 := rheZ_le x c
  omega

theorem rndZ_den_pos (a : ℤ) (b : ℕ) : 0 < (rndZ a b).2 := by
  simp only [rndZ]
  split_ifs <;> positivity

theorem rndZ_val_branchB {a : ℤ} {b : ℕ} (ha : 0 < a)
    (hbr : (52 : ℤ) ≤ (eSearchN a.toNat b 400 : ℤ) - 200) :
    ((rndZ a b).1 : ℚ) / ((rndZ a b).2 : ℚ)
      = (rheZ a (b * 2 ^ ((eSearchN a.toNat b 400 : ℤ) - 200 - 52).toNat) : ℚ)
        * ((2 ^ ((eSearchN a.toNat b 400 : ℤ) - 200 - 52).toNat : ℕ) : ℚ) := by
  simp only [rndZ]
  rw [if_neg (by omega : ¬ a ≤ 0), if_pos hbr]
  push_cast
  ring

theorem rndZ_val_branchA {a : ℤ} {b : ℕ} (ha : 0 < a)
    (hbr : ¬ (52 : ℤ) ≤ (eSearchN a.toNat b 400 : ℤ) - 200) :
    ((rndZ a b).1 : ℚ) / ((rndZ a b).2 : ℚ)
      = (rheZ (a * ((2 ^ ((52 : ℤ) - ((eSearchN a.toNat b 400 : ℤ) - 200)).toNat : ℕ) : ℤ)) b : ℚ)
        / ((2 ^ ((52 : ℤ) - ((eSearchN a.toNat b 400 : ℤ) - 200)).toNat : ℕ) : ℚ) := by
  simp only [rndZ]
  rw [if_neg (by omega : ¬ a ≤ 0), if_neg hbr]

theorem roundB_bounds {a : ℤ} {b P : ℕ} {e : ℤ}
    (hP : (P : ℚ) = (2:ℚ) ^ (e - 52)) (hb : 0 < b)
    (hlo : (2:ℚ) ^ e ≤ (a : ℚ)/(b : ℚ)) (hhi : (a : ℚ)/(b : ℚ) < (2:ℚ) ^ (e + 1)) :
    (2:ℚ) ^ e ≤ (rheZ a (b * P) : ℚ) * (P : ℚ) ∧
      (rheZ a (b * P) : ℚ) * (P : ℚ) ≤ (2:ℚ) ^ (e + 1) := by
  have hPQ : (0:ℚ) < (P : ℚ) := by rw [hP]; positivity
  have hm : ((a : ℚ))/(((b * P : ℕ)) : ℚ) = ((a : ℚ)/(b : ℚ))/(P : ℚ) := by
    push_cast
    rw [div_div]
  have h52 : (2:ℚ) ^ (52:ℤ) * (2:ℚ) ^ (e - 52) = (2:ℚ) ^ e := by
    rw [← zpow_add₀ (by norm_num : (2:ℚ) ≠ 0)]
    congr 1
    omega
  have h53 : (2:ℚ) ^ (53:ℤ) * (2:ℚ) ^ (e - 52) = (2:ℚ) ^ (e + 1) := by
    rw [← zpow_add₀ (by norm_num : (2:ℚ) ≠ 0)]
    congr 1
    omega
  have hmlo : (2:ℚ) ^ (52:ℤ) ≤ (a : ℚ)/((b * P : ℕ) : ℚ) := by
    rw [hm, hP, le_div_iff (by positivity), h52]
    exact hlo
  have hmhi : (a : ℚ)/((b * P : ℕ) : ℚ) < (2:ℚ) ^ (53:ℤ) := by
    rw [hm, hP, div_lt_iff (by positivity), h53]
    exact hhi
  obtain ⟨hR1, hR2⟩ := rheZ_mantissa_bounds hmlo hmhi
  have hR1Q : (2:ℚ) ^ (52:ℤ) ≤ (rheZ a (b * P) : ℚ) := by
    calc (2:ℚ) ^ (52:ℤ) = ((2 ^ 52 : ℤ) : ℚ) := by push_cast; norm_num
      _ ≤ _ := by exact_mod_cast hR1
  have hR2Q : (rheZ a (b * P) : ℚ) ≤ (2:ℚ) ^ (53:ℤ) := by
    calc (rheZ a (b * P) : ℚ) ≤ ((2 ^ 53 : ℤ) : ℚ) := by exact_mod_cast hR2
      _ = (2:ℚ) ^ (53:ℤ) := by push_cast; norm_num
  constructor
  · calc (2:ℚ) ^ e = (2:ℚ) ^ (52:ℤ) * (2:ℚ) ^ (e - 52) := h52.symm
      _ ≤ (rheZ a (b * P) : ℚ) * (2:ℚ) ^ (e - 52) :=
          mul_le_mul_of_nonneg_right hR1Q (by positivity)
      _ = (rheZ a (b * P) : ℚ) * (P : ℚ) := by rw [hP]
  · calc (rheZ a (b * P) : ℚ) * (P : ℚ)
        = (rheZ a (b * P) : ℚ) * (2:ℚ) ^ (e - 52) := by rw [hP]
      _ ≤ (2:ℚ) ^ (53:ℤ) * (2:ℚ) ^ (e - 52) :=
          mul_le_mul_of_nonneg_right hR2Q (by positivity)
      _ = (2:ℚ) ^ (e + 1) := h53

theorem roundA_bounds {a : ℤ} {b P : ℕ} {e : ℤ}
    (hP : (P : ℚ) = (2:ℚ) ^ (52 - e)) (hb : 0 < b)
    (hlo : (2:ℚ) ^ e ≤ (a : ℚ)/(b : ℚ)) (hhi : (a : ℚ)/(b : ℚ) < (2:ℚ) ^ (e + 1)) :
    (2:ℚ) ^ e ≤ (rheZ (a * (P : ℤ)) b : ℚ) / (P : ℚ) ∧
      (rheZ (a * (P : ℤ)) b : ℚ) / (P : ℚ) ≤ (2:ℚ) ^ (e + 1) := by
  have hPQ : (0:ℚ) < (P : ℚ) := by rw [hP]; positivity
  have hm : (((a * (P : ℤ) : ℤ)) : ℚ)/(b : ℚ) = ((a : ℚ)/(b : ℚ)) * (P : ℚ) := by
    push_cast
    ring
  have h52 : (2:ℚ) ^ e * (2:ℚ) ^ (52 - e) = (2:ℚ) ^ (52:ℤ) := by
    rw [← zpow_add₀ (by norm_num : (2:ℚ) ≠ 0)]
    congr 1
    omega
  have h53 : (2:ℚ) ^ (e + 1) * (2:ℚ) ^ (52 - e) = (2:ℚ) ^ (53:ℤ) := by
    rw [← zpow_add₀ (by norm_num : (2:ℚ) ≠ 0)]
    congr 1
    omega
  have hmlo : (2:ℚ) ^ (52:ℤ) ≤ ((a * (P : ℤ) : ℤ) : ℚ)/(b : ℚ) := by
    rw [hm, hP, ← h52]
    exact mul_le_mul_of_nonneg_right hlo (by positivity)
  have hmhi : ((a * (P : ℤ) : ℤ) : ℚ)/(b : ℚ) < (2:ℚ) ^ (53:ℤ) := by
    rw [hm, hP, ← h53]
    exact mul_lt_mul_of_pos_right hhi (by positivity)
  obtain ⟨hR1, hR2⟩ := rheZ_mantissa_bounds hmlo hmhi
  have hR1Q : (2:ℚ) ^ (52:ℤ) ≤ (rheZ (a * (P : ℤ)) b : ℚ) := by
    calc (2:ℚ) ^ (52:ℤ) = ((2 ^ 52 : ℤ) : ℚ) := by push_cast; norm_num
      _ ≤ _ := by exact_mod_cast hR1
  have hR2Q : (rheZ (a * (P : ℤ)) b : ℚ) ≤ (2:ℚ) ^ (53:ℤ) := by
    calc (rheZ (a * (P : ℤ)) b : ℚ) ≤ ((2 ^ 53 : ℤ) : ℚ) := by exact_mod_cast hR2
      _ = (2:ℚ) ^ (53:ℤ) := by push_cast; norm_num
  constructor
  · rw [le_div_iff hPQ, hP, h52]
    exact hR1Q
  · rw [div_le_iff hPQ, hP, h53]
    exact hR2Q

theorem rndZ_spec {a : ℤ} {b : ℕ} (ha : 0 < a) (hb : 0 < b)
    (hlow : (2:ℚ) ^ (-200 : ℤ) ≤ (a : ℚ)/(b : ℚ))
    (hhigh : (a : ℚ)/(b : ℚ) < (2:ℚ) ^ (200 : ℤ)) :
    (2:ℚ) ^ ((eSearchN a.toNat b 400 : ℤ) - 200)
        ≤ ((rndZ a b).1 : ℚ) / ((rndZ a b).2 : ℚ) ∧
      ((rndZ a b).1 : ℚ) / ((rndZ a b).2 : ℚ)
        ≤ (2:ℚ) ^ ((eSearchN a.toNat b 400 : ℤ) - 200 + 1) := by
  have ha' : 0 < a.toNat := by omega
  have hq : ((a.toNat : ℕ) : ℚ)/(b : ℚ) = (a : ℚ)/(b : ℚ) := by
    rw [show ((a.toNat : ℕ) : ℚ) = (a : ℚ) by
      exact_mod_cast Int.toNat_of_nonneg (le_of_lt ha)]
  obtain ⟨hlo_e, hhi_e⟩ := eOf_spec ha' hb (by rw [hq]; exact hlow)
    (by rw [hq]; exact hhigh)
  rw [hq] at hlo_e hhi_e
  by_cases hbr : (52 : ℤ) ≤ (eSearchN a.toNat b 400 : ℤ) - 200
  · rw [rndZ_val_branchB ha hbr]
    exact roundB_bounds (natPow_cast_zpow _ (by omega)) hb hlo_e hhi_e
  · rw [rndZ_val_branchA ha hbr]
    exact roundA_bounds (natPow_cast_zpow _ (by omega)) hb hlo_e hhi_e

theorem div_mul_nat_cast (a : ℤ) (b P : ℕ) :
    ((a : ℚ))/(((b * P : ℕ)) : ℚ) = ((a : ℚ)/(b : ℚ))/(P : ℚ) := by
  push_cast
  rw [div_div]

theorem mul_int_cast_div (a : ℤ) (b P : ℕ) :
    (((a * (P : ℤ) : ℤ)) : ℚ)/(b : ℚ) = ((a : ℚ)/(b : ℚ)) * (P : ℚ) := by
  push_cast
  ring

theorem roundB_mono {a1 a2 : ℤ} {b1 b2 P : ℕ}
    (hb1 : 0 < b1) (hb2 : 0 < b2) (hPn : 0 < P)
    (h : (a1 : ℚ)/(b1 : ℚ) ≤ (a2 : ℚ)/(b2 : ℚ)) :
    (rheZ a1 (b1 * P) : ℚ) * (P : ℚ) ≤ (rheZ a2 (b2 * P) : ℚ) * (P : ℚ) := by
  have hPQ : (0:ℚ) < (P : ℚ) := by exact_mod_cast hPn
  have harg : ((a1 : ℚ))/((b1 * P : ℕ) : ℚ) ≤ ((a2 : ℚ))/((b2 * P : ℕ) : ℚ) := by
    rw [div_mul_nat_cast, div_mul_nat_cast]
    exact (div_le_div_right hPQ).mpr h
  have hZ := rheZ_mono (Nat.mul_pos hb1 hPn) (Nat.mul_pos hb2 hPn) harg
  exact mul_le_mul_of_nonneg_right (by exact_mod_cast hZ) (le_of_lt hPQ)

theorem roundA_mono {a1 a2 : ℤ} {b1 b2 P : ℕ}
    (hb1 : 0 < b1) (hb2 : 0 < b2) (hPn : 0 < P)
    (h : (a1 : ℚ)/(b1 : ℚ) ≤ (a2 : ℚ)/(b2 : ℚ)) :
    (rheZ (a1 * (P : ℤ)) b1 : ℚ) / (P : ℚ) ≤ (rheZ (a2 * (P : ℤ)) b2 : ℚ) / (P : ℚ) := by
  have hPQ : (0:ℚ) < (P : ℚ) := by exact_mod_cast hPn
  have harg : ((a1 * (P : ℤ) : ℤ) : ℚ)/(b1 : ℚ) ≤ ((a2 * (P : ℤ) : ℤ) : ℚ)/(b2 : ℚ) := by
    rw [mul_int_cast_div, mul_int_cast_div]
    exact mul_le_mul_of_nonneg_right h (le_of_lt hPQ)
  have hZ := rheZ_mono hb1 hb2 harg
  exact (div_le_div_right hPQ).mpr (by exact_mod_cast hZ)

theorem rndZ_mono {a1 a2 : ℤ} {b1 b2 : ℕ} (ha1 : 0 < a1) (ha2 : 0 < a2)
    (hb1 : 0 < b1) (hb2 : 0 < b2)
    (hlow1 : (2:ℚ) ^ (-200 : ℤ) ≤ (a1 : ℚ)/(b1 : ℚ))
    (hhigh1 : (a1 : ℚ)/(b1 : ℚ) < (2:ℚ) ^ (200 : ℤ))
    (hlow2 : (2:ℚ) ^ (-200 : ℤ) ≤ (a2 : ℚ)/(b2 : ℚ))
    (hhigh2 : (a2 : ℚ)/(b2 : ℚ) < (2:ℚ) ^ (200 : ℤ))
    (h : (a1 : ℚ)/(b1 : ℚ) ≤ (a2 : ℚ)/(b2 : ℚ)) :
    ((rndZ a1 b1).1 : ℚ) / ((rndZ a1 b1).2 : ℚ)
      ≤ ((rndZ a2 b2).1 : ℚ) / ((rndZ a2 b2).2 : ℚ) := by
  have ha1' : 0 < a1.toNat := by omega
  have ha2' : 0 < a2.toNat := by omega
  have hq1 : ((a1.toNat : ℕ) : ℚ)/(b1 : ℚ) = (a1 : ℚ)/(b1 : ℚ) := by
    rw [show ((a1.toNat : ℕ) : ℚ) = (a1 : ℚ) by
      exact_mod_cast Int.toNat_of_nonneg (le_of_lt ha1)]
  have hq2 : ((a2.toNat : ℕ) : ℚ)/(b2 : ℚ) = (a2 : ℚ)/(b2 : ℚ) := by
    rw [show ((a2.toNat : ℕ) : ℚ) = (a2 : ℚ) by
      exact_mod_cast Int.toNat_of_nonneg (le_of_lt ha2)]
  obtain ⟨hlo1, hhi1⟩ := eOf_spec ha1' hb1 (by rw [hq1]; exact hlow1)
    (by rw [hq1]; exact hhigh1)
  obtain ⟨hlo2, hhi2⟩ := eOf_spec ha2' hb2 (by rw [hq2]; exact hlow2)
    (by rw [hq2]; exact hhigh2)
  rw [hq1] at hlo1 hhi1
  rw [hq2] at hlo2 hhi2
  have hee : (eSearchN a1.toNat b1 400 : ℤ) - 200
      ≤ (eSearchN a2.toNat b2 400 : ℤ) - 200 := by
    have hlt : (2:ℚ) ^ ((eSearchN a1.toNat b1 400 : ℤ) - 200)
        < (2:ℚ) ^ ((eSearchN a2.toNat b2 400 : ℤ) - 200 + 1) :=
      lt_of_le_of_lt (le_trans hlo1 h) hhi2
    have := (zpow_lt_zpow_iff_right₀ (by norm_num : (1:ℚ) < 2)).mp hlt
    omega
  rcases eq_or_lt_of_le hee with heq | hlt
  · by_cases hbr : (52 : ℤ) ≤ (eSearchN a1.toNat b1 400 : ℤ) - 200
    · rw [rndZ_val_branchB ha1 hbr, rndZ_val_branchB ha2 (by omega)]
      rw [show ((eSearchN a2.toNat b2 400 : ℤ) - 200 - 52).toNat
          = ((eSearchN a1.toNat b1 400 : ℤ) - 200 - 52).toNat by omega]
      exact roundB_mono hb1 hb2 (by positivity) h
    · rw [rndZ_val_branchA ha1 hbr, rndZ_val_branchA ha2 (by omega)]
      rw [show ((52 : ℤ) - ((eSearchN a2.toNat b2 400 : ℤ) - 200)).toNat
          = ((52 : ℤ) - ((eSearchN a1.toNat b1 400 : ℤ) - 200)).toNat by omega]
      exact roundA_mono hb1 hb2 (by positivity) h
  · obtain ⟨hv1lo, hv1hi⟩ := rndZ_spec ha1 hb1 hlow1 hhigh1
    obtain ⟨hv2lo, hv2hi⟩ := rndZ_spec ha2 hb2 hlow2 hhigh2
    calc ((rndZ a1 b1).1 : ℚ) / ((rndZ a1 b1).2 : ℚ)
        ≤ (2:ℚ) ^ ((eSearchN a1.toNat b1 400 : ℤ) - 200 + 1) := hv1hi
      _ ≤ (2:ℚ) ^ ((eSearchN a2.toNat b2 400 : ℤ) - 200) :=
          zpow_le_zpow_right₀ (by norm_num) (by omega)
      _ ≤ _ := hv2lo

theorem rheZ_nonneg {a : ℤ} (ha : 0 ≤ a) (b : ℕ) : 0 ≤ rheZ a b := by
  have h1 := rheZ_ge a b
  have h2 : 0 ≤ a / (b : ℤ) := Int.ediv_nonneg ha (Int.natCast_nonneg b)
  omega

theorem rndZ_num_nonneg {a : ℤ} (ha : 0 ≤ a) (b : ℕ) : 0 ≤ (rndZ a b).1 := by
  simp only [rndZ]
  split_ifs
  · exact le_refl 0
  · exact mul_nonneg (rheZ_nonneg ha _) (Int.natCast_nonneg _)
  · exact rheZ_nonneg (mul_nonneg ha (Int.natCast_nonneg _)) _

theorem eSearchN_le (a b : ℕ) : ∀ K, eSearchN a b K ≤ K := by
  intro K
  induction K with
  | zero => simp [eSearchN]
  | succ K ih =>
    simp only [eSearchN]
    split
    · exact Nat.le_refl _
    · exact Nat.le_succ_of_le ih

theorem eSearchN_ge {a b : ℕ} (k : ℕ) :
    ∀ K, k ≤ K → 2 ^ k * b ≤ 2 ^ 200 * a → k ≤ eSearchN a b K := by
  intro K
  induction K with
  | zero => intro hk _; simpa [eSearchN] using hk
  | succ K ih =>
    intro hk hcond
    by_cases hc : 2 ^ (K + 1) * b ≤ 2 ^ 200 * a
    · simp only [eSearchN, if_pos hc]
      exact hk
    · simp only [eSearchN, if_neg hc]
      have hkK : k ≤ K := by
        rcases Nat.lt_or_ge k (K + 1) with h | h
        · omega
        · have hkk : k = K + 1 := by omega
          subst hkk
          exact absurd hcond hc
      exact ih hkK hcond

theorem eSearchN_top {a b : ℕ} (h : 2 ^ 400 * b ≤ 2 ^ 200 * a) :
    eSearchN a b 400 = 400 := by
  show (if 2 ^ (399 + 1) * b ≤ 2 ^ 200 * a then 399 + 1 else eSearchN a b 399)
    = 400
  rw [if_pos h]

theorem eSearchN_not_top {a b : ℕ} (h : ¬ 2 ^ 400 * b ≤ 2 ^ 200 * a) :
    eSearchN a b 400 ≤ 399 := by
  have hstep : eSearchN a b 400 = eSearchN a b 399 := by
    show (if 2 ^ (399 + 1) * b ≤ 2 ^ 200 * a then 399 + 1 else eSearchN a b 399)
      = eSearchN a b 399
    rw [if_neg h]
  rw [hstep]
  exact eSearchN_le a b 399

theorem uncap_high {a : ℤ} {b : ℕ} (ha : 0 < a) (hb : 0 < b)
    (hc : ¬ 2 ^ 400 * b ≤ 2 ^ 200 * a.toNat) :
    (a : ℚ)/(b : ℚ) < (2:ℚ) ^ (200 : ℤ) := by
  have h1 : a.toNat < 2 ^ 200 * b := by
    by_contra hcon
    apply hc
    have h2 : 2 ^ 200 * b ≤ a.toNat := Nat.le_of_not_lt hcon
    calc 2 ^ 400 * b = 2 ^ 200 * (2 ^ 200 * b) := by ring
      _ ≤ 2 ^ 200 * a.toNat := Nat.mul_le_mul_left _ h2
  have h2 : (a : ℚ) < ((2 ^ 200 * b : ℕ) : ℚ) := by
    have h3 : ((a.toNat : ℕ) : ℚ) < ((2 ^ 200 * b : ℕ) : ℚ) := by exact_mod_cast h1
    rw [show ((a.toNat : ℕ) : ℚ) = (a : ℚ) from by
      exact_mod_cast Int.toNat_of_nonneg (le_of_lt ha)] at h3
    exact h3
  rw [div_lt_iff (by exact_mod_cast hb : (0:ℚ) < (b : ℚ))]
  calc (a : ℚ) < ((2 ^ 200 * b : ℕ) : ℚ) := h2
    _ = (2:ℚ) ^ (200 : ℤ) * (b : ℚ) := by
        push_cast
        norm_num

theorem cap_unfold {a : ℤ} {b : ℕ} (ha : 0 < a)
    (hcap : 2 ^ 400 * b ≤ 2 ^ 200 * a.toNat) :
    (2 ^ 200 : ℤ) * b ≤ a := by
  have h1 : 2 ^ 200 * b ≤ a.toNat := by
    have h2 : 2 ^ 200 * (2 ^ 200 * b) ≤ 2 ^ 200 * a.toNat := by
      calc 2 ^ 200 * (2 ^ 200 * b) = 2 ^ 400 * b := by ring
        _ ≤ 2 ^ 200 * a.toNat := hcap
    exact Nat.le_of_mul_le_mul_left h2 (by positivity)
  have h3 : ((2 ^ 200 * b : ℕ) : ℤ) ≤ (a.toNat : ℤ) := by exact_mod_cast h1
  rw [Int.toNat_of_nonneg (le_of_lt ha)] at h3
  calc (2 ^ 200 : ℤ) * b = ((2 ^ 200 * b : ℕ) : ℤ) := by push_cast; ring
    _ ≤ a := h3

theorem rndZ_cap_eq {a : ℤ} {b : ℕ} (ha : 0 < a)
    (hcap : 2 ^ 400 * b ≤ 2 ^ 200 * a.toNat) :
    rndZ a b = (rheZ a (b * 2 ^ 148) * ((2 ^ 148 : ℕ) : ℤ), 1) := by
  have htop : eSearchN a.toNat b 400 = 400 := eSearchN_top hcap
  simp only [rndZ]
  rw [if_neg (by omega : ¬ a ≤ 0), htop]
  rw [if_pos (by norm_num : (52:ℤ) ≤ ((400 : ℕ) : ℤ) - 200)]
  rw [show ((((400 : ℕ) : ℤ) - 200) - 52).toNat = 148 from by decide]

theorem rndZ_cap_ge {a : ℤ} {b : ℕ} (ha : 0 < a) (hb : 0 < b)
    (hcap : 2 ^ 400 * b ≤ 2 ^ 200 * a.toNat) :
    (2:ℚ) ^ (200 : ℤ) ≤ ((rndZ a b).1 : ℚ) / ((rndZ a b).2 : ℚ) := by
  have hab := cap_unfold ha hcap
  have hden : (0:ℤ) < ((b * 2 ^ 148 : ℕ) : ℤ) := by positivity
  have hR : (2 ^ 52 : ℤ) ≤ rheZ a (b * 2 ^ 148) := by
    have hdiv : (2 ^ 52 : ℤ) ≤ a / ((b * 2 ^ 148 : ℕ) : ℤ) := by
      rw [Int.le_ediv_iff_mul_le hden]
      calc (2 ^ 52 : ℤ) * ((b * 2 ^ 148 : ℕ) : ℤ) = 2 ^ 200 * b := by
            push_cast; ring
        _ ≤ a := hab
    exact le_trans hdiv (rheZ_ge _ _)
  rw [rndZ_cap_eq ha hcap]
  have hRQ : ((2 ^ 52 : ℤ) : ℚ) ≤ (rheZ a (b * 2 ^ 148) : ℚ) := by exact_mod_cast hR
  push_cast
  rw [div_one]
  calc (2:ℚ) ^ (200 : ℤ) = (2:ℚ) ^ (52 : ℕ) * (2:ℚ) ^ (148 : ℕ) := by
        rw [show (200 : ℤ) = ((200 : ℕ) : ℤ) from by norm_num, zpow_natCast]
        norm_num
    _ ≤ (rheZ a (b * 2 ^ 148) : ℚ) * (2:ℚ) ^ (148 : ℕ) := by
        apply mul_le_mul_of_nonneg_right _ (by positivity)
        calc (2:ℚ) ^ (52 : ℕ) = ((2 ^ 52 : ℤ) : ℚ) := by push_cast; ring
          _ ≤ _ := hRQ

theorem rndZ_mono_all {a1 a2 : ℤ} {b1 b2 : ℕ} (ha1 : 0 < a1) (ha2 : 0 < a2)
    (hb1 : 0 < b1) (hb2 : 0 < b2)
    (hlow1 : (2:ℚ) ^ (-200 : ℤ) ≤ (a1 : ℚ)/(b1 : ℚ))
    (hlow2 : (2:ℚ) ^ (-200 : ℤ) ≤ (a2 : ℚ)/(b2 : ℚ))
    (h : (a1 : ℚ)/(b1 : ℚ) ≤ (a2 : ℚ)/(b2 : ℚ)) :
    ((rndZ a1 b1).1 : ℚ) / ((rndZ a1 b1).2 : ℚ)
      ≤ ((rndZ a2 b2).1 : ℚ) / ((rndZ a2 b2).2 : ℚ) := by
  by_cases hc2 : 2 ^ 400 * b2 ≤ 2 ^ 200 * a2.toNat
  · by_cases hc1 : 2 ^ 400 * b1 ≤ 2 ^ 200 * a1.toNat
    · rw [rndZ_cap_eq ha1 hc1, rndZ_cap_eq ha2 hc2]
      have harg : (a1 : ℚ)/((b1 * 2 ^ 148 : ℕ) : ℚ)
          ≤ (a2 : ℚ)/((b2 * 2 ^ 148 : ℕ) : ℚ) := by
        rw [div_mul_nat_cast, div_mul_nat_cast]
        exact (div_le_div_right (by positivity)).mpr h
      have hZ := rheZ_mono (Nat.mul_pos hb1 (by positivity))
        (Nat.mul_pos hb2 (by positivity)) harg
      have hZQ : (rheZ a1 (b1 * 2 ^ 148) : ℚ) ≤ (rheZ a2 (b2 * 2 ^ 148) : ℚ) := by
        exact_mod_cast hZ
      push_cast
      rw [div_one, div_one]
      exact mul_le_mul_of_nonneg_right hZQ (by positivity)
    · have hhigh1 : (a1 : ℚ)/(b1 : ℚ) < (2:ℚ) ^ (200 : ℤ) := uncap_high ha1 hb1 hc1
      have hub1 := (rndZ_spec ha1 hb1 hlow1 hhigh1).2
      have hE1 : eSearchN a1.toNat b1 400 ≤ 399 := eSearchN_not_top hc1
      have hub1' : ((rndZ a1 b1).1 : ℚ)/((rndZ a1 b1).2 : ℚ)
          ≤ (2:ℚ) ^ (200 : ℤ) := by
        calc ((rndZ a1 b1).1 : ℚ)/((rndZ a1 b1).2 : ℚ)
            ≤ (2:ℚ) ^ ((eSearchN a1.toNat b1 400 : ℤ) - 200 + 1) := hub1
          _ ≤ (2:ℚ) ^ (200 : ℤ) := zpow_le_zpow_right₀ (by norm_num) (by omega)
      exact le_trans hub1' (rndZ_cap_ge ha2 hb2 hc2)
  · have hhigh2 : (a2 : ℚ)/(b2 : ℚ) < (2:ℚ) ^ (200 : ℤ) := uncap_high ha2 hb2 hc2
    have hhigh1 : (a1 : ℚ)/(b1 : ℚ) < (2:ℚ) ^ (200 : ℤ) := lt_of_le_of_lt h hhigh2
    exact rndZ_mono ha1 ha2 hb1 hb2 hlow1 hhigh1 hlow2 hhigh2 h

theorem pyEncodeUs_zero : pyEncodeUs 0 = 0 := by decide

theorem pyEncodeUs_nonneg (n : ℕ) : 0 ≤ pyEncodeUs n := by
  have h2 : 0 ≤ (rndZ (n : ℤ) 1000000).1 := rndZ_num_nonneg (Int.natCast_nonneg n) _
  have h3 : (0:ℤ) ≤ (rndZ (n : ℤ) 1000000).1 * 1000000 :=
    mul_nonneg h2 (by norm_num)
  have h4 := rndZ_num_nonneg h3 (rndZ (n : ℤ) 1000000).2
  exact Int.ediv_nonneg h4 (Int.natCast_nonneg _)

theorem rndZ_val_lb {a : ℤ} {b : ℕ} (ha : 0 < a) (hb : 0 < b)
    (hlow : (2:ℚ) ^ (-200 : ℤ) ≤ (a : ℚ)/(b : ℚ))
    (hhigh : (a : ℚ)/(b : ℚ) < (2:ℚ) ^ (200 : ℤ)) :
    (2:ℚ) ^ (-200 : ℤ) ≤ ((rndZ a b).1 : ℚ)/((rndZ a b).2 : ℚ) :=
  le_trans (zpow_le_zpow_right₀ (by norm_num) (by omega))
    (rndZ_spec ha hb hlow hhigh).1

theorem rndZ_val_le_two_mul {a : ℤ} {b : ℕ} (ha : 0 < a) (hb : 0 < b)
    (hlow : (2:ℚ) ^ (-200 : ℤ) ≤ (a : ℚ)/(b : ℚ))
    (hhigh : (a : ℚ)/(b : ℚ) < (2:ℚ) ^ (200 : ℤ)) :
    ((rndZ a b).1 : ℚ)/((rndZ a b).2 : ℚ) ≤ 2 * ((a : ℚ)/(b : ℚ)) := by
  have ha' : 0 < a.toNat := by omega
  have hq : ((a.toNat : ℕ) : ℚ)/(b : ℚ) = (a : ℚ)/(b : ℚ) := by
    rw [show ((a.toNat : ℕ) : ℚ) = (a : ℚ) by
      exact_mod_cast Int.toNat_of_nonneg (le_of_lt ha)]
  obtain ⟨hlo_e, _⟩ := eOf_spec ha' hb (by rw [hq]; exact hlow)
    (by rw [hq]; exact hhigh)
  rw [hq] at hlo_e
  obtain ⟨_, hvhi⟩ := rndZ_spec ha hb hlow hhigh
  calc ((rndZ a b).1 : ℚ)/((rndZ a b).2 : ℚ)
      ≤ (2:ℚ) ^ ((eSearchN a.toNat b 400 : ℤ) - 200 + 1) := hvhi
    _ = 2 * (2:ℚ) ^ ((eSearchN a.toNat b 400 : ℤ) - 200) := by
        rw [zpow_add_one₀ (by norm_num : (2:ℚ) ≠ 0)]
        ring
    _ ≤ 2 * ((a : ℚ)/(b : ℚ)) := by linarith

theorem rndZ_val_lb_all {a : ℤ} {b : ℕ} (ha : 0 < a) (hb : 0 < b)
    (hlow : (2:ℚ) ^ (-200 : ℤ) ≤ (a : ℚ)/(b : ℚ)) :
    (2:ℚ) ^ (-200 : ℤ) ≤ ((rndZ a b).1 : ℚ)/((rndZ a b).2 : ℚ) := by
  by_cases hc : 2 ^ 400 * b ≤ 2 ^ 200 * a.toNat
  · exact le_trans (zpow_le_zpow_right₀ (by norm_num) (by norm_num))
      (rndZ_cap_ge ha hb hc)
  · exact rndZ_val_lb ha hb hlow (uncap_high ha hb hc)

theorem encode_qfacts {n : ℕ} (hn : 0 < n) (h : n ≤ 2 ^ 61) :
    (2:ℚ) ^ (-200 : ℤ) ≤ ((n : ℤ) : ℚ)/((1000000 : ℕ) : ℚ) ∧
    ((n : ℤ) : ℚ)/((1000000 : ℕ) : ℚ) < (2:ℚ) ^ (200 : ℤ) := by
  have hn1 : (1:ℚ) ≤ ((n : ℤ) : ℚ) := by exact_mod_cast hn
  have hn2 : ((n : ℤ) : ℚ) ≤ ((2 ^ 61 : ℕ) : ℚ) := by exact_mod_cast h
  constructor
  · calc (2:ℚ) ^ (-200 : ℤ) ≤ (1:ℚ)/((1000000 : ℕ) : ℚ) := by norm_num
      _ ≤ ((n : ℤ) : ℚ)/((1000000 : ℕ) : ℚ) :=
        (div_le_div_right (by norm_num)).mpr hn1
  · calc ((n : ℤ) : ℚ)/((1000000 : ℕ) : ℚ)
        ≤ ((2 ^ 61 : ℕ) : ℚ)/((1000000 : ℕ) : ℚ) :=
          (div_le_div_right (by norm_num)).mpr hn2
      _ < (2:ℚ) ^ (200 : ℤ) := by norm_num

theorem encode_stage1 {n : ℕ} (hn : 0 < n) (h : n ≤ 2 ^ 61) :
    0 < (rndZ (n : ℤ) 1000000).1 ∧
    (2:ℚ) ^ (-200 : ℤ)
      ≤ (((rndZ (n : ℤ) 1000000).1 * 1000000 : ℤ) : ℚ)
        / (((rndZ (n : ℤ) 1000000).2 : ℕ) : ℚ) ∧
    (((rndZ (n : ℤ) 1000000).1 * 1000000 : ℤ) : ℚ)
        / (((rndZ (n : ℤ) 1000000).2 : ℕ) : ℚ) ≤ 2 * ((n : ℤ) : ℚ) ∧
    (((rndZ (n : ℤ) 1000000).1 * 1000000 : ℤ) : ℚ)
        / (((rndZ (n : ℤ) 1000000).2 : ℕ) : ℚ) < (2:ℚ) ^ (200 : ℤ) := by
  obtain ⟨hqlo, hqhi⟩ := encode_qfacts hn h
  have hnpos : (0:ℤ) < (n : ℤ) := by exact_mod_cast hn
  have hvlb := rndZ_val_lb hnpos (by norm_num) hqlo hqhi
  have hvub := rndZ_val_le_two_mul hnpos (by norm_num) hqlo hqhi
  have hvpos : (0:ℚ) < ((rndZ (n : ℤ) 1000000).1 : ℚ)
      / ((rndZ (n : ℤ) 1000000).2 : ℚ) :=
    lt_of_lt_of_le (by positivity) hvlb
  have hdpos : (0:ℚ) < ((rndZ (n : ℤ) 1000000).2 : ℚ) := by
    exact_mod_cast rndZ_den_pos (n : ℤ) 1000000
  have hnum : (0:ℚ) < ((rndZ (n : ℤ) 1000000).1 : ℚ) := by
    have hmul := mul_pos hvpos hdpos
    rw [div_mul_cancel₀ _ (ne_of_gt hdpos)] at hmul
    exact hmul
  have hnumZ : 0 < (rndZ (n : ℤ) 1000000).1 := by exact_mod_cast hnum
  have hu : (((rndZ (n : ℤ) 1000000).1 * 1000000 : ℤ) : ℚ)
      / (((rndZ (n : ℤ) 1000000).2 : ℕ) : ℚ)
      = ((rndZ (n : ℤ) 1000000).1 : ℚ) / ((rndZ (n : ℤ) 1000000).2 : ℚ)
        * 1000000 := by
    push_cast
    ring
  have hqmul : ((n : ℤ) : ℚ)/((1000000 : ℕ) : ℚ) * 1000000 = ((n : ℤ) : ℚ) := by
    rw [show ((1000000 : ℕ) : ℚ) = (1000000 : ℚ) by norm_num]
    exact div_mul_cancel₀ _ (by norm_num)
  refine ⟨hnumZ, ?_, ?_, ?_⟩
  · rw [hu]
    calc (2:ℚ) ^ (-200 : ℤ)
        ≤ ((rndZ (n : ℤ) 1000000).1 : ℚ) / ((rndZ (n : ℤ) 1000000).2 : ℚ) := hvlb
      _ = ((rndZ (n : ℤ) 1000000).1 : ℚ) / ((rndZ (n : ℤ) 1000000).2 : ℚ) * 1 :=
          (mul_one _).symm
      _ ≤ ((rndZ (n : ℤ) 1000000).1 : ℚ) / ((rndZ (n : ℤ) 1000000).2 : ℚ)
          * 1000000 :=
          mul_le_mul_of_nonneg_left (by norm_num) (le_of_lt hvpos)
  · rw [hu]
    calc ((rndZ (n : ℤ) 1000000).1 : ℚ) / ((rndZ (n : ℤ) 1000000).2 : ℚ) * 1000000
        ≤ 2 * (((n : ℤ) : ℚ)/((1000000 : ℕ) : ℚ)) * 1000000 :=
          mul_le_mul_of_nonneg_right hvub (by norm_num)
      _ = 2 * (((n : ℤ) : ℚ)/((1000000 : ℕ) : ℚ) * 1000000) := by ring
      _ = 2 * ((n : ℤ) : ℚ) := by rw [hqmul]
  · have hn2 : ((n : ℤ) : ℚ) ≤ ((2 ^ 61 : ℕ) : ℚ) := by exact_mod_cast h
    have hub2 : (((rndZ (n : ℤ) 1000000).1 * 1000000 : ℤ) : ℚ)
        / (((rndZ (n : ℤ) 1000000).2 : ℕ) : ℚ) ≤ 2 * ((n : ℤ) : ℚ) := by
      rw [hu]
      calc ((rndZ (n : ℤ) 1000000).1 : ℚ) / ((rndZ (n : ℤ) 1000000).2 : ℚ)
            * 1000000
          ≤ 2 * (((n : ℤ) : ℚ)/((1000000 : ℕ) : ℚ)) * 1000000 :=
            mul_le_mul_of_nonneg_right hvub (by norm_num)
        _ = 2 * (((n : ℤ) : ℚ)/((1000000 : ℕ) : ℚ) * 1000000) := by ring
        _ = 2 * ((n : ℤ) : ℚ) := by rw [hqmul]
    calc (((rndZ (n : ℤ) 1000000).1 * 1000000 : ℤ) : ℚ)
        / (((rndZ (n : ℤ) 1000000).2 : ℕ) : ℚ) ≤ 2 * ((n : ℤ) : ℚ) := hub2
      _ ≤ 2 * ((2 ^ 61 : ℕ) : ℚ) := by linarith
      _ < (2:ℚ) ^ (200 : ℤ) := by norm_num

theorem pyEncodeUs_mono {n1 n2 : ℕ} (h12 : n1 ≤ n2) (h2 : n2 ≤ 2 ^ 61) :
    pyEncodeUs n1 ≤ pyEncodeUs n2 := by
  rcases Nat.eq_zero_or_pos n1 with rfl | hn1
  · rw [pyEncodeUs_zero]
    exact pyEncodeUs_nonneg n2
  · have hn2 : 0 < n2 := lt_of_lt_of_le hn1 h12
    obtain ⟨hq1lo, hq1hi⟩ := encode_qfacts hn1 (le_trans h12 h2)
    obtain ⟨hq2lo, hq2hi⟩ := encode_qfacts hn2 h2
    obtain ⟨hp1, hlb1, _, hlt1⟩ := encode_stage1 hn1 (le_trans h12 h2)
    obtain ⟨hp2, hlb2, _, hlt2⟩ := encode_stage1 hn2 h2
    have hq12 : ((n1 : ℤ) : ℚ)/((1000000 : ℕ) : ℚ)
        ≤ ((n2 : ℤ) : ℚ)/((1000000 : ℕ) : ℚ) :=
      (div_le_div_right (by norm_num)).mpr (by exact_mod_cast h12)
    have hv12 := rndZ_mono (by exact_mod_cast hn1) (by exact_mod_cast hn2)
      (by norm_num) (by norm_num) hq1lo hq1hi hq2lo hq2hi hq12
    have hu1 : (((rndZ (n1 : ℤ) 1000000).1 * 1000000 : ℤ) : ℚ)
        / (((rndZ (n1 : ℤ) 1000000).2 : ℕ) : ℚ)
        = ((rndZ (n1 : ℤ) 1000000).1 : ℚ) / ((rndZ (n1 : ℤ) 1000000).2 : ℚ)
          * 1000000 := by
      push_cast
      ring
    have hu2 : (((rndZ (n2 : ℤ) 1000000).1 * 1000000 : ℤ) : ℚ)
        / (((rndZ (n2 : ℤ) 1000000).2 : ℕ) : ℚ)
        = ((rndZ (n2 : ℤ) 1000000).1 : ℚ) / ((rndZ (n2 : ℤ) 1000000).2 : ℚ)
          * 1000000 := by
      push_cast
      ring
    have hu12 : (((rndZ (n1 : ℤ) 1000000).1 * 1000000 : ℤ) : ℚ)
        / (((rndZ (n1 : ℤ) 1000000).2 : ℕ) : ℚ)
        ≤ (((rndZ (n2 : ℤ) 1000000).1 * 1000000 : ℤ) : ℚ)
          / (((rndZ (n2 : ℤ) 1000000).2 : ℕ) : ℚ) := by
      rw [hu1, hu2]
      exact mul_le_mul_of_nonneg_right hv12 (by norm_num)
    have hfin := rndZ_mono (mul_pos hp1 (by norm_num)) (mul_pos hp2 (by norm_num))
      (rndZ_den_pos _ _) (rndZ_den_pos _ _) hlb1 hlt1 hlb2 hlt2 hu12
    show (rndZ ((rndZ (n1 : ℤ) 1000000).1 * 1000000) (rndZ (n1 : ℤ) 1000000).2).1
        / ((rndZ ((rndZ (n1 : ℤ) 1000000).1 * 1000000)
            (rndZ (n1 : ℤ) 1000000).2).2 : ℤ)
      ≤ (rndZ ((rndZ (n2 : ℤ) 1000000).1 * 1000000) (rndZ (n2 : ℤ) 1000000).2).1
        / ((rndZ ((rndZ (n2 : ℤ) 1000000).1 * 1000000)
            (rndZ (n2 : ℤ) 1000000).2).2 : ℤ)
    rw [floor_div_int, floor_div_int]
    exact Int.floor_le_floor hfin

theorem pyEncodeUs_lt_bound {n : ℕ} (h : n ≤ 2 ^ 61) : pyEncodeUs n < 2 ^ 64 := by
  rcases Nat.eq_zero_or_pos n with rfl | hn
  · rw [pyEncodeUs_zero]
    norm_num
  · obtain ⟨hp, hlb, hub, hlt⟩ := encode_stage1 hn h
    have hval_ub := rndZ_val_le_two_mul (mul_pos hp (by norm_num))
      (rndZ_den_pos _ _) hlb hlt
    have hn4 : ((n : ℤ) : ℚ) ≤ ((2 ^ 61 : ℕ) : ℚ) := by exact_mod_cast h
    show (rndZ ((rndZ (n : ℤ) 1000000).1 * 1000000) (rndZ (n : ℤ) 1000000).2).1
        / ((rndZ ((rndZ (n : ℤ) 1000000).1 * 1000000)
            (rndZ (n : ℤ) 1000000).2).2 : ℤ) < 2 ^ 64
    rw [floor_div_int]
    apply Int.floor_lt.mpr
    calc ((rndZ ((rndZ (n : ℤ) 1000000).1 * 1000000) (rndZ (n : ℤ) 1000000).2).1 : ℚ)
        / ((rndZ ((rndZ (n : ℤ) 1000000).1 * 1000000) (rndZ (n : ℤ) 1000000).2).2 : ℚ)
        ≤ 2 * ((((rndZ (n : ℤ) 1000000).1 * 1000000 : ℤ) : ℚ)
            / (((rndZ (n : ℤ) 1000000).2 : ℕ) : ℚ)) := hval_ub
      _ ≤ 4 * ((n : ℤ) : ℚ) := by linarith
      _ ≤ 4 * ((2 ^ 61 : ℕ) : ℚ) := by linarith
      _ < (((2 ^ 64 : ℤ)) : ℚ) := by norm_num

theorem q_low_micro {m : ℕ} (hm : 0 < m) :
    (2:ℚ) ^ (-200 : ℤ) ≤ ((m : ℤ) : ℚ)/((1000000 : ℕ) : ℚ) := by
  have hn1 : (1:ℚ) ≤ ((m : ℤ) : ℚ) := by exact_mod_cast hm
  calc (2:ℚ) ^ (-200 : ℤ) ≤ (1:ℚ)/((1000000 : ℕ) : ℚ) := by norm_num
    _ ≤ ((m : ℤ) : ℚ)/((1000000 : ℕ) : ℚ) :=
      (div_le_div_right (by norm_num)).mpr hn1

theorem q_high80 {m : ℕ} (h : m ≤ 2 ^ 80) :
    ((m : ℤ) : ℚ)/((1000000 : ℕ) : ℚ) < (2:ℚ) ^ (200 : ℤ) := by
  have hm : ((m : ℤ) : ℚ) ≤ ((2 ^ 80 : ℕ) : ℚ) := by exact_mod_cast h
  calc ((m : ℤ) : ℚ)/((1000000 : ℕ) : ℚ)
      ≤ ((2 ^ 80 : ℕ) : ℚ)/((1000000 : ℕ) : ℚ) :=
        (div_le_div_right (by norm_num)).mpr hm
    _ < (2:ℚ) ^ (200 : ℤ) := by norm_num

theorem pyEncodeUs_mono_all {n1 n2 : ℕ} (h12 : n1 ≤ n2) :
    pyEncodeUs n1 ≤ pyEncodeUs n2 := by
  rcases Nat.eq_zero_or_pos n1 with rfl | hn1
  · rw [pyEncodeUs_zero]
    exact pyEncodeUs_nonneg n2
  · have hn2 : 0 < n2 := lt_of_lt_of_le hn1 h12
    have hq1lo := q_low_micro hn1
    have hq2lo := q_low_micro hn2
    have hq12 : ((n1 : ℤ) : ℚ)/((1000000 : ℕ) : ℚ)
        ≤ ((n2 : ℤ) : ℚ)/((1000000 : ℕ) : ℚ) :=
      (div_le_div_right (by norm_num)).mpr (by exact_mod_cast h12)
    have hv12 := rndZ_mono_all (by exact_mod_cast hn1) (by exact_mod_cast hn2)
      (by norm_num) (by norm_num) hq1lo hq2lo hq12
    have hd1 : (0:ℚ) < ((rndZ (n1 : ℤ) 1000000).2 : ℚ) := by
      exact_mod_cast rndZ_den_pos (n1 : ℤ) 1000000
    have hd2 : (0:ℚ) < ((rndZ (n2 : ℤ) 1000000).2 : ℚ) := by
      exact_mod_cast rndZ_den_pos (n2 : ℤ) 1000000
    have hvlb1 := rndZ_val_lb_all (by exact_mod_cast hn1) (by norm_num) hq1lo
    have hvlb2 := rndZ_val_lb_all (by exact_mod_cast hn2) (by norm_num) hq2lo
    have hp1 : 0 < (rndZ (n1 : ℤ) 1000000).1 := by
      have hvpos : (0:ℚ) < ((rndZ (n1 : ℤ) 1000000).1 : ℚ)
          / ((rndZ (n1 : ℤ) 1000000).2 : ℚ) := lt_of_lt_of_le (by positivity) hvlb1
      have hmul := mul_pos hvpos hd1
      rw [div_mul_cancel₀ _ (ne_of_gt hd1)] at hmul
      exact_mod_cast hmul
    have hp2 : 0 < (rndZ (n2 : ℤ) 1000000).1 := by
      have hvpos : (0:ℚ) < ((rndZ (n2 : ℤ) 1000000).1 : ℚ)
          / ((rndZ (n2 : ℤ) 1000000).2 : ℚ) := lt_of_lt_of_le (by positivity) hvlb2
      have hmul := mul_pos hvpos hd2
      rw [div_mul_cancel₀ _ (ne_of_gt hd2)] at hmul
      exact_mod_cast hmul
    have hu1 : (((rndZ (n1 : ℤ) 1000000).1 * 1000000 : ℤ) : ℚ)
        / (((rndZ (n1 : ℤ) 1000000).2 : ℕ) : ℚ)
        = ((rndZ (n1 : ℤ) 1000000).1 : ℚ) / ((rndZ (n1 : ℤ) 1000000).2 : ℚ)
          * 1000000 := by
      push_cast
      ring
    have hu2 : (((rndZ (n2 : ℤ) 1000000).1 * 1000000 : ℤ) : ℚ)
        / (((rndZ (n2 : ℤ) 1000000).2 : ℕ) : ℚ)
        = ((rndZ (n2 : ℤ) 1000000).1 : ℚ) / ((rndZ (n2 : ℤ) 1000000).2 : ℚ)
          * 1000000 := by
      push_cast
      ring
    have hlb1' : (2:ℚ) ^ (-200 : ℤ)
        ≤ (((rndZ (n1 : ℤ) 1000000).1 * 1000000 : ℤ) : ℚ)
          / (((rndZ (n1 : ℤ) 1000000).2 : ℕ) : ℚ) := by
      rw [hu1]
      calc (2:ℚ) ^ (-200 : ℤ)
          ≤ ((rndZ (n1 : ℤ) 1000000).1 : ℚ) / ((rndZ (n1 : ℤ) 1000000).2 : ℚ) :=
            hvlb1
        _ = ((rndZ (n1 : ℤ) 1000000).1 : ℚ) / ((rndZ (n1 : ℤ) 1000000).2 : ℚ)
            * 1 := (mul_one _).symm
        _ ≤ ((rndZ (n1 : ℤ) 1000000).1 : ℚ) / ((rndZ (n1 : ℤ) 1000000).2 : ℚ)
            * 1000000 :=
            mul_le_mul_of_nonneg_left (by norm_num)
              (le_trans (by positivity) hvlb1)
    have hlb2' : (2:ℚ) ^ (-200 : ℤ)
        ≤ (((rndZ (n2 : ℤ) 1000000).1 * 1000000 : ℤ) : ℚ)
          / (((rndZ (n2 : ℤ) 1000000).2 : ℕ) : ℚ) := by
      rw [hu2]
      calc (2:ℚ) ^ (-200 : ℤ)
          ≤ ((rndZ (n2 : ℤ) 1000000).1 : ℚ) / ((rndZ (n2 : ℤ) 1000000).2 : ℚ) :=
            hvlb2
        _ = ((rndZ (n2 : ℤ) 1000000).1 : ℚ) / ((rndZ (n2 : ℤ) 1000000).2 : ℚ)
            * 1 := (mul_one _).symm
        _ ≤ ((rndZ (n2 : ℤ) 1000000).1 : ℚ) / ((rndZ (n2 : ℤ) 1000000).2 : ℚ)
            * 1000000 :=
            mul_le_mul_of_nonneg_left (by norm_num)
              (le_trans (by positivity) hvlb2)
    have hu12 : (((rndZ (n1 : ℤ) 1000000).1 * 1000000 : ℤ) : ℚ)
        / (((rndZ (n1 : ℤ) 1000000).2 : ℕ) : ℚ)
        ≤ (((rndZ (n2 : ℤ) 1000000).1 * 1000000 : ℤ) : ℚ)
          / (((rndZ (n2 : ℤ) 1000000).2 : ℕ) : ℚ) := by
      rw [hu1, hu2]
      exact mul_le_mul_of_nonneg_right hv12 (by norm_num)
    have hfin := rndZ_mono_all (mul_pos hp1 (by norm_num)) (mul_pos hp2 (by norm_num))
      (rndZ_den_pos _ _) (rndZ_den_pos _ _) hlb1' hlb2' hu12
    show (rndZ ((rndZ (n1 : ℤ) 1000000).1 * 1000000) (rndZ (n1 : ℤ) 1000000).2).1
        / ((rndZ ((rndZ (n1 : ℤ) 1000000).1 * 1000000)
            (rndZ (n1 : ℤ) 1000000).2).2 : ℤ)
      ≤ (rndZ ((rndZ (n2 : ℤ) 1000000).1 * 1000000) (rndZ (n2 : ℤ) 1000000).2).1
        / ((rndZ ((rndZ (n2 : ℤ) 1000000).1 * 1000000)
            (rndZ (n2 : ℤ) 1000000).2).2 : ℤ)
    rw [floor_div_int, floor_div_int]
    exact Int.floor_le_floor hfin

/-! ## Codec lemmas: the decode direction -/

theorem pyDecodeUs_zero : pyDecodeUs 0 = 0 := by decide

theorem pyDecodeUs_nonneg (m : ℕ) : 0 ≤ pyDecodeUs m := by
  have hx1 : 0 ≤ (rndZ (m : ℤ) 1000000).1 :=
    rndZ_num_nonneg (Int.natCast_nonneg m) _
  have hden : (0:ℤ) < ((rndZ (m : ℤ) 1000000).2 : ℤ) := by
    exact_mod_cast rndZ_den_pos (m : ℤ) 1000000
  have hi : 0 ≤ (rndZ (m : ℤ) 1000000).1 / ((rndZ (m : ℤ) 1000000).2 : ℤ) :=
    Int.ediv_nonneg hx1 (le_of_lt hden)
  have hrem : 0 ≤ (rndZ (m : ℤ) 1000000).1 % ((rndZ (m : ℤ) 1000000).2 : ℤ) :=
    Int.emod_nonneg _ (ne_of_gt hden)
  have hy : 0 ≤ (rndZ ((rndZ (m : ℤ) 1000000).1 % ((rndZ (m : ℤ) 1000000).2 : ℤ)
      * 1000000) (rndZ (m : ℤ) 1000000).2).1 :=
    rndZ_num_nonneg (mul_nonneg hrem (by norm_num)) _
  have hus := rheZ_nonneg hy (rndZ ((rndZ (m : ℤ) 1000000).1
      % ((rndZ (m : ℤ) 1000000).2 : ℤ) * 1000000) (rndZ (m : ℤ) 1000000).2).2
  exact add_nonneg (mul_nonneg hi (by norm_num)) hus

theorem decode_den_le {m : ℕ} (hm : 0 < m) :
    (rndZ (m : ℤ) 1000000).2 ≤ 2 ^ 72 := by
  have htn : ((m : ℤ)).toNat = m := Int.toNat_natCast m
  have h180 : (180 : ℕ) ≤ eSearchN ((m : ℤ)).toNat 1000000 400 := by
    rw [htn]
    apply eSearchN_ge 180 400 (by norm_num)
    calc 2 ^ 180 * 1000000 ≤ 2 ^ 180 * 2 ^ 20 := by norm_num
      _ = 2 ^ 200 := by norm_num
      _ ≤ 2 ^ 200 * m := Nat.le_mul_of_pos_right _ hm
  simp only [rndZ]
  rw [if_neg (by omega : ¬ (m : ℤ) ≤ 0)]
  by_cases hbr : (52:ℤ) ≤ ((eSearchN ((m : ℤ)).toNat 1000000 400 : ℕ) : ℤ) - 200
  · rw [if_pos hbr]
    norm_num
  · rw [if_neg hbr]
    have hk : ((52:ℤ)
        - (((eSearchN ((m : ℤ)).toNat 1000000 400 : ℕ) : ℤ) - 200)).toNat ≤ 72 := by
      omega
    exact Nat.pow_le_pow_right (by norm_num) hk

theorem frac_val_low {r : ℤ} {d : ℕ} (hr : 0 < r) (hd : 0 < d)
    (hdle : d ≤ 2 ^ 72) :
    (2:ℚ) ^ (-200 : ℤ) ≤ ((r * 1000000 : ℤ) : ℚ) / ((d : ℕ) : ℚ) := by
  have hnum : (1000000:ℚ) ≤ ((r * 1000000 : ℤ) : ℚ) := by
    have hr1 : (1:ℚ) ≤ (r:ℚ) := by exact_mod_cast hr
    push_cast
    nlinarith
  have hden : ((d : ℕ) : ℚ) ≤ ((2 ^ 72 : ℕ) : ℚ) := by exact_mod_cast hdle
  have h2 : (1000000:ℚ)/((2 ^ 72 : ℕ) : ℚ) ≤ ((r * 1000000 : ℤ) : ℚ)/((d : ℕ) : ℚ) :=
    div_le_div (by positivity) hnum (by exact_mod_cast hd) hden
  calc (2:ℚ) ^ (-200 : ℤ) ≤ (1000000:ℚ)/((2 ^ 72 : ℕ) : ℚ) := by norm_num
    _ ≤ _ := h2

theorem frac_val_high {r : ℤ} {d : ℕ} (hr : 0 ≤ r) (hrd : r < (d : ℤ))
    (hd : 0 < d) :
    ((r * 1000000 : ℤ) : ℚ) / ((d : ℕ) : ℚ) < (2:ℚ) ^ (200 : ℤ) := by
  have hdQ : (0:ℚ) < ((d : ℕ) : ℚ) := by exact_mod_cast hd
  rw [div_lt_iff hdQ]
  have hrdQ : (r:ℚ) < ((d : ℕ) : ℚ) := by exact_mod_cast hrd
  have h6 : (1000000:ℚ) ≤ (2:ℚ) ^ (200 : ℤ) := by norm_num
  have hstep : ((r * 1000000 : ℤ) : ℚ) < ((d : ℕ) : ℚ) * 1000000 := by
    push_cast
    nlinarith
  nlinarith

theorem rndZ_million : rndZ (1000000 : ℤ) 1 = (8589934592000000, 8589934592) := by
  decide

theorem frac_round_le {r : ℤ} {d : ℕ} (hr0 : 0 ≤ r) (hrd : r < (d : ℤ))
    (hd : 0 < d) (hdle : d ≤ 2 ^ 72) :
    0 ≤ rheZ (rndZ (r * 1000000) d).1 (rndZ (r * 1000000) d).2 ∧
    rheZ (rndZ (r * 1000000) d).1 (rndZ (r * 1000000) d).2 ≤ 1000000 := by
  constructor
  · exact rheZ_nonneg (rndZ_num_nonneg (mul_nonneg hr0 (by norm_num)) _) _
  · rcases eq_or_lt_of_le hr0 with hz | hpos
    · rw [show r * 1000000 = 0 from by rw [← hz]; ring]
      rw [show rndZ 0 d = (0, 1) from by simp [rndZ]]
      decide
    · have hlow := frac_val_low hpos hd hdle
      have hhigh := frac_val_high hr0 hrd hd
      have harg : ((r * 1000000 : ℤ) : ℚ) / ((d : ℕ) : ℚ)
          ≤ ((1000000 : ℤ) : ℚ) / ((1 : ℕ) : ℚ) := by
        rw [show ((1000000 : ℤ) : ℚ) / ((1 : ℕ) : ℚ) = (1000000:ℚ) from by
          norm_num]
        have hdQ : (0:ℚ) < ((d : ℕ) : ℚ) := by exact_mod_cast hd
        rw [div_le_iff hdQ]
        have hrdQ : (r:ℚ) < ((d : ℕ) : ℚ) := by exact_mod_cast hrd
        push_cast
        nlinarith
      have hmono := rndZ_mono (by positivity : (0:ℤ) < r * 1000000)
        (by norm_num : (0:ℤ) < (1000000:ℤ)) hd (by norm_num) hlow hhigh
        (by norm_num) (by norm_num) harg
      have hmilval : ((rndZ (1000000 : ℤ) 1).1 : ℚ)/((rndZ (1000000 : ℤ) 1).2 : ℚ)
          = 1000000 := by
        rw [rndZ_million]
        norm_num
      have hval : ((rndZ (r * 1000000) d).1 : ℚ)/((rndZ (r * 1000000) d).2 : ℚ)
          ≤ ((1000000 : ℤ) : ℚ) / ((1 : ℕ) : ℚ) := by
        calc ((rndZ (r * 1000000) d).1 : ℚ)/((rndZ (r * 1000000) d).2 : ℚ)
            ≤ ((rndZ (1000000 : ℤ) 1).1 : ℚ)/((rndZ (1000000 : ℤ) 1).2 : ℚ) :=
              hmono
          _ = 1000000 := hmilval
          _ = ((1000000 : ℤ) : ℚ) / ((1 : ℕ) : ℚ) := by norm_num
      have hfin := rheZ_mono (rndZ_den_pos _ _) Nat.one_pos hval
      calc rheZ (rndZ (r * 1000000) d).1 (rndZ (r * 1000000) d).2
          ≤ rheZ 1000000 1 := hfin
        _ = 1000000 := by decide

theorem pyDecodeUs_mono {m1 m2 : ℕ} (h12 : m1 ≤ m2) (h2 : m2 ≤ 2 ^ 80) :
    pyDecodeUs m1 ≤ pyDecodeUs m2 := by
  rcases Nat.eq_zero_or_pos m1 with rfl | hm1
  · rw [pyDecodeUs_zero]
    exact pyDecodeUs_nonneg m2
  have hm2 : 0 < m2 := lt_of_lt_of_le hm1 h12
  have hq1lo := q_low_micro hm1
  have hq2lo := q_low_micro hm2
  have hq1hi := q_high80 (le_trans h12 h2)
  have hq2hi := q_high80 h2
  have hq12 : ((m1 : ℤ) : ℚ)/((1000000 : ℕ) : ℚ)
      ≤ ((m2 : ℤ) : ℚ)/((1000000 : ℕ) : ℚ) :=
    (div_le_div_right (by norm_num)).mpr (by exact_mod_cast h12)
  have hv12 := rndZ_mono (by exact_mod_cast hm1) (by exact_mod_cast hm2)
    (by norm_num) (by norm_num) hq1lo hq1hi hq2lo hq2hi hq12
  have hd1Z : (0:ℤ) < ((rndZ (m1 : ℤ) 1000000).2 : ℤ) := by
    exact_mod_cast rndZ_den_pos (m1 : ℤ) 1000000
  have hd2Z : (0:ℤ) < ((rndZ (m2 : ℤ) 1000000).2 : ℤ) := by
    exact_mod_cast rndZ_den_pos (m2 : ℤ) 1000000
  have hi12 : (rndZ (m1 : ℤ) 1000000).1 / ((rndZ (m1 : ℤ) 1000000).2 : ℤ)
      ≤ (rndZ (m2 : ℤ) 1000000).1 / ((rndZ (m2 : ℤ) 1000000).2 : ℤ) := by
    rw [floor_div_int, floor_div_int]
    exact Int.floor_le_floor hv12
  have hrem1 : 0 ≤ (rndZ (m1 : ℤ) 1000000).1 % ((rndZ (m1 : ℤ) 1000000).2 : ℤ) :=
    Int.emod_nonneg _ (ne_of_gt hd1Z)
  have hrem1' : (rndZ (m1 : ℤ) 1000000).1 % ((rndZ (m1 : ℤ) 1000000).2 : ℤ)
      < ((rndZ (m1 : ℤ) 1000000).2 : ℤ) := Int.emod_lt_of_pos _ hd1Z
  have hrem2 : 0 ≤ (rndZ (m2 : ℤ) 1000000).1 % ((rndZ (m2 : ℤ) 1000000).2 : ℤ) :=
    Int.emod_nonneg _ (ne_of_gt hd2Z)
  have hrem2' : (rndZ (m2 : ℤ) 1000000).1 % ((rndZ (m2 : ℤ) 1000000).2 : ℤ)
      < ((rndZ (m2 : ℤ) 1000000).2 : ℤ) := Int.emod_lt_of_pos _ hd2Z
  have hub1 := frac_round_le hrem1 hrem1' (rndZ_den_pos _ _) (decode_den_le hm1)
  have hub2 := frac_round_le hrem2 hrem2' (rndZ_den_pos _ _) (decode_den_le hm2)
  show (rndZ (m1 : ℤ) 1000000).1 / ((rndZ (m1 : ℤ) 1000000).2 : ℤ) * 1000000
      + rheZ (rndZ ((rndZ (m1 : ℤ) 1000000).1 % ((rndZ (m1 : ℤ) 1000000).2 : ℤ)
          * 1000000) (rndZ (m1 : ℤ) 1000000).2).1
        (rndZ ((rndZ (m1 : ℤ) 1000000).1 % ((rndZ (m1 : ℤ) 1000000).2 : ℤ)
          * 1000000) (rndZ (m1 : ℤ) 1000000).2).2
      ≤ (rndZ (m2 : ℤ) 1000000).1 / ((rndZ (m2 : ℤ) 1000000).2 : ℤ) * 1000000
      + rheZ (rndZ ((rndZ (m2 : ℤ) 1000000).1 % ((rndZ (m2 : ℤ) 1000000).2 : ℤ)
          * 1000000) (rndZ (m2 : ℤ) 1000000).2).1
        (rndZ ((rndZ (m2 : ℤ) 1000000).1 % ((rndZ (m2 : ℤ) 1000000).2 : ℤ)
          * 1000000) (rndZ (m2 : ℤ) 1000000).2).2
  rcases lt_or_le ((rndZ (m1 : ℤ) 1000000).1 / ((rndZ (m1 : ℤ) 1000000).2 : ℤ))
      ((rndZ (m2 : ℤ) 1000000).1 / ((rndZ (m2 : ℤ) 1000000).2 : ℤ)) with hlt | hge
  · have h1 := hub1.2
    have h2 := hub2.1
    linarith
  · have hieq : (rndZ (m1 : ℤ) 1000000).1 / ((rndZ (m1 : ℤ) 1000000).2 : ℤ)
        = (rndZ (m2 : ℤ) 1000000).1 / ((rndZ (m2 : ℤ) 1000000).2 : ℤ) :=
      le_antisymm hi12 hge
    have hdec1 := Int.ediv_add_emod (rndZ (m1 : ℤ) 1000000).1
      ((rndZ (m1 : ℤ) 1000000).2 : ℤ)
    have hdec2 := Int.ediv_add_emod (rndZ (m2 : ℤ) 1000000).1
      ((rndZ (m2 : ℤ) 1000000).2 : ℤ)
    have hd1Q : (0:ℚ) < ((rndZ (m1 : ℤ) 1000000).2 : ℚ) := by
      exact_mod_cast rndZ_den_pos (m1 : ℤ) 1000000
    have hd2Q : (0:ℚ) < ((rndZ (m2 : ℤ) 1000000).2 : ℚ) := by
      exact_mod_cast rndZ_den_pos (m2 : ℤ) 1000000
    have hq1 : ((rndZ (m1 : ℤ) 1000000).1 : ℚ) / ((rndZ (m1 : ℤ) 1000000).2 : ℚ)
        = (((rndZ (m1 : ℤ) 1000000).1 / ((rndZ (m1 : ℤ) 1000000).2 : ℤ) : ℤ) : ℚ)
          + (((rndZ (m1 : ℤ) 1000000).1 % ((rndZ (m1 : ℤ) 1000000).2 : ℤ) : ℤ) : ℚ)
            / ((rndZ (m1 : ℤ) 1000000).2 : ℚ) := by
      have hdecQ : ((rndZ (m1 : ℤ) 1000000).2 : ℚ)
          * (((rndZ (m1 : ℤ) 1000000).1 / ((rndZ (m1 : ℤ) 1000000).2 : ℤ) : ℤ) : ℚ)
          + (((rndZ (m1 : ℤ) 1000000).1 % ((rndZ (m1 : ℤ) 1000000).2 : ℤ) : ℤ) : ℚ)
          = ((rndZ (m1 : ℤ) 1000000).1 : ℚ) := by exact_mod_cast hdec1
      field_simp
      linarith [hdecQ]
    have hq2 : ((rndZ (m2 : ℤ) 1000000).1 : ℚ) / ((rndZ (m2 : ℤ) 1000000).2 : ℚ)
        = (((rndZ (m2 : ℤ) 1000000).1 / ((rndZ (m2 : ℤ) 1000000).2 : ℤ) : ℤ) : ℚ)
          + (((rndZ (m2 : ℤ) 1000000).1 % ((rndZ (m2 : ℤ) 1000000).2 : ℤ) : ℤ) : ℚ)
            / ((rndZ (m2 : ℤ) 1000000).2 : ℚ) := by
      have hdecQ : ((rndZ (m2 : ℤ) 1000000).2 : ℚ)
          * (((rndZ (m2 : ℤ) 1000000).1 / ((rndZ (m2 : ℤ) 1000000).2 : ℤ) : ℤ) : ℚ)
          + (((rndZ (m2 : ℤ) 1000000).1 % ((rndZ (m2 : ℤ) 1000000).2 : ℤ) : ℤ) : ℚ)
          = ((rndZ (m2 : ℤ) 1000000).1 : ℚ) := by exact_mod_cast hdec2
      field_simp
      linarith [hdecQ]
    have hfrac : (((rndZ (m1 : ℤ) 1000000).1 % ((rndZ (m1 : ℤ) 1000000).2 : ℤ)
          : ℤ) : ℚ) / ((rndZ (m1 : ℤ) 1000000).2 : ℚ)
        ≤ (((rndZ (m2 : ℤ) 1000000).1 % ((rndZ (m2 : ℤ) 1000000).2 : ℤ)
          : ℤ) : ℚ) / ((rndZ (m2 : ℤ) 1000000).2 : ℚ) := by
      rw [hq1, hq2, hieq] at hv12
      have hcast : ((((rndZ (m2 : ℤ) 1000000).1
          / ((rndZ (m2 : ℤ) 1000000).2 : ℤ) : ℤ) : ℚ))
          = (((rndZ (m2 : ℤ) 1000000).1 / ((rndZ (m2 : ℤ) 1000000).2 : ℤ) : ℤ) : ℚ) :=
        rfl
      linarith [hv12]
    rcases eq_or_lt_of_le hrem1 with hz1 | hpos1
    · have hu1z : rheZ (rndZ ((rndZ (m1 : ℤ) 1000000).1
          % ((rndZ (m1 : ℤ) 1000000).2 : ℤ) * 1000000) (rndZ (m1 : ℤ) 1000000).2).1
          (rndZ ((rndZ (m1 : ℤ) 1000000).1
            % ((rndZ (m1 : ℤ) 1000000).2 : ℤ) * 1000000)
            (rndZ (m1 : ℤ) 1000000).2).2 = 0 := by
        rw [show (rndZ (m1 : ℤ) 1000000).1 % ((rndZ (m1 : ℤ) 1000000).2 : ℤ)
            * 1000000 = 0 from by rw [← hz1]; ring]
        rw [show rndZ 0 (rndZ (m1 : ℤ) 1000000).2 = (0, 1) from by simp [rndZ]]
        decide
      rw [hu1z, hieq]
      have h2 := hub2.1
      linarith
    · have hpos2 : 0 < (rndZ (m2 : ℤ) 1000000).1
          % ((rndZ (m2 : ℤ) 1000000).2 : ℤ) := by
        by_contra hcon
        have h0 : (rndZ (m2 : ℤ) 1000000).1 % ((rndZ (m2 : ℤ) 1000000).2 : ℤ)
            = 0 := le_antisymm (not_lt.mp hcon) hrem2
        rw [h0] at hfrac
        have hposq : (0:ℚ) < (((rndZ (m1 : ℤ) 1000000).1
            % ((rndZ (m1 : ℤ) 1000000).2 : ℤ) : ℤ) : ℚ)
            / ((rndZ (m1 : ℤ) 1000000).2 : ℚ) := by
          apply div_pos _ hd1Q
          exact_mod_cast hpos1
        simp at hfrac
        linarith
    -- y-stage monotone, then round-half-even monotone
      have harg : (((rndZ (m1 : ℤ) 1000000).1 % ((rndZ (m1 : ℤ) 1000000).2 : ℤ)
            * 1000000 : ℤ) : ℚ) / (((rndZ (m1 : ℤ) 1000000).2 : ℕ) : ℚ)
          ≤ (((rndZ (m2 : ℤ) 1000000).1 % ((rndZ (m2 : ℤ) 1000000).2 : ℤ)
            * 1000000 : ℤ) : ℚ) / (((rndZ (m2 : ℤ) 1000000).2 : ℕ) : ℚ) := by
        have e1 : (((rndZ (m1 : ℤ) 1000000).1 % ((rndZ (m1 : ℤ) 1000000).2 : ℤ)
              * 1000000 : ℤ) : ℚ) / (((rndZ (m1 : ℤ) 1000000).2 : ℕ) : ℚ)
            = (((rndZ (m1 : ℤ) 1000000).1 % ((rndZ (m1 : ℤ) 1000000).2 : ℤ)
              : ℤ) : ℚ) / ((rndZ (m1 : ℤ) 1000000).2 : ℚ) * 1000000 := by
          push_cast
          ring
        have e2 : (((rndZ (m2 : ℤ) 1000000).1 % ((rndZ (m2 : ℤ) 1000000).2 : ℤ)
              * 1000000 : ℤ) : ℚ) / (((rndZ (m2 : ℤ) 1000000).2 : ℕ) : ℚ)
            = (((rndZ (m2 : ℤ) 1000000).1 % ((rndZ (m2 : ℤ) 1000000).2 : ℤ)
              : ℤ) : ℚ) / ((rndZ (m2 : ℤ) 1000000).2 : ℚ) * 1000000 := by
          push_cast
          ring
        rw [e1, e2]
        exact mul_le_mul_of_nonneg_right hfrac (by norm_num)
      have hy12 := rndZ_mono (mul_pos hpos1 (by norm_num))
        (mul_pos hpos2 (by norm_num)) (rndZ_den_pos _ _) (rndZ_den_pos _ _)
        (frac_val_low hpos1 (rndZ_den_pos _ _) (decode_den_le hm1))
        (frac_val_high hrem1 hrem1' (rndZ_den_pos _ _))
        (frac_val_low hpos2 (rndZ_den_pos _ _) (decode_den_le hm2))
        (frac_val_high hrem2 hrem2' (rndZ_den_pos _ _)) harg
      have hus := rheZ_mono (rndZ_den_pos _ _) (rndZ_den_pos _ _) hy12
      rw [hieq]
      linarith

theorem pyDecodeUs_big {m : ℕ} (h : 2 ^ 80 < m) :
    (maxDatetimeUs : ℤ) < pyDecodeUs m := by
  have hm : 0 < m := by omega
  have htn : ((m : ℤ)).toNat = m := Int.toNat_natCast m
  have hrem : 0 ≤ (rndZ (m : ℤ) 1000000).1 % ((rndZ (m : ℤ) 1000000).2 : ℤ) := by
    have hden : (0:ℤ) < ((rndZ (m : ℤ) 1000000).2 : ℤ) := by
      exact_mod_cast rndZ_den_pos (m : ℤ) 1000000
    exact Int.emod_nonneg _ (ne_of_gt hden)
  have hus : 0 ≤ rheZ (rndZ ((rndZ (m : ℤ) 1000000).1
      % ((rndZ (m : ℤ) 1000000).2 : ℤ) * 1000000) (rndZ (m : ℤ) 1000000).2).1
      (rndZ ((rndZ (m : ℤ) 1000000).1 % ((rndZ (m : ℤ) 1000000).2 : ℤ)
        * 1000000) (rndZ (m : ℤ) 1000000).2).2 :=
    rheZ_nonneg (rndZ_num_nonneg (mul_nonneg hrem (by norm_num)) _) _
  have hi : (2 ^ 60 : ℤ) ≤ (rndZ (m : ℤ) 1000000).1
      / ((rndZ (m : ℤ) 1000000).2 : ℤ) := by
    by_cases hcap : 2 ^ 400 * 1000000 ≤ 2 ^ 200 * ((m : ℤ)).toNat
    · have hxeq := rndZ_cap_eq (by exact_mod_cast hm : (0:ℤ) < (m : ℤ)) hcap
      have hab := cap_unfold (by exact_mod_cast hm : (0:ℤ) < (m : ℤ)) hcap
      have hden : (0:ℤ) < ((1000000 * 2 ^ 148 : ℕ) : ℤ) := by positivity
      have hR : (2 ^ 52 : ℤ) ≤ rheZ (m : ℤ) (1000000 * 2 ^ 148) := by
        have hdiv : (2 ^ 52 : ℤ) ≤ (m : ℤ) / ((1000000 * 2 ^ 148 : ℕ) : ℤ) := by
          rw [Int.le_ediv_iff_mul_le hden]
          calc (2 ^ 52 : ℤ) * ((1000000 * 2 ^ 148 : ℕ) : ℤ)
              = 2 ^ 200 * 1000000 := by norm_num
            _ ≤ (m : ℤ) := hab
        exact le_trans hdiv (rheZ_ge _ _)
      rw [hxeq]
      show (2 ^ 60 : ℤ)
        ≤ rheZ (m : ℤ) (1000000 * 2 ^ 148) * ((2 ^ 148 : ℕ) : ℤ) / 1
      rw [Int.ediv_one]
      calc (2 ^ 60 : ℤ) ≤ 2 ^ 52 * ((2 ^ 148 : ℕ) : ℤ) := by norm_num
        _ ≤ rheZ (m : ℤ) (1000000 * 2 ^ 148) * ((2 ^ 148 : ℕ) : ℤ) :=
            mul_le_mul_of_nonneg_right hR (by positivity)
    · have hhi : ((m : ℤ) : ℚ)/((1000000 : ℕ) : ℚ) < (2:ℚ) ^ (200 : ℤ) :=
        uncap_high (by exact_mod_cast hm) (by norm_num) hcap
      have hE : (260 : ℕ) ≤ eSearchN ((m : ℤ)).toNat 1000000 400 := by
        rw [htn]
        apply eSearchN_ge 260 400 (by norm_num)
        calc 2 ^ 260 * 1000000 ≤ 2 ^ 260 * 2 ^ 20 := by norm_num
          _ = 2 ^ 200 * 2 ^ 80 := by norm_num
          _ ≤ 2 ^ 200 * m := Nat.mul_le_mul_left _ (le_of_lt h)
      have hspec := (rndZ_spec (by exact_mod_cast hm : (0:ℤ) < (m : ℤ))
        (by norm_num) (q_low_micro hm) hhi).1
      have hval : (2:ℚ) ^ (60 : ℤ) ≤ ((rndZ (m : ℤ) 1000000).1 : ℚ)
          / ((rndZ (m : ℤ) 1000000).2 : ℚ) := by
        refine le_trans (zpow_le_zpow_right₀ (by norm_num) ?_) hspec
        omega
      rw [floor_div_int]
      apply Int.le_floor.mpr
      calc ((2 ^ 60 : ℤ) : ℚ) = (2:ℚ) ^ (60 : ℤ) := by
            push_cast
            rw [show (60 : ℤ) = ((60 : ℕ) : ℤ) from by norm_num, zpow_natCast]
            norm_num
        _ ≤ _ := hval
  have hbig : (maxDatetimeUs : ℤ) < 2 ^ 60 * 1000000 := by
    norm_num [maxDatetimeUs]
  show (maxDatetimeUs : ℤ)
      < (rndZ (m : ℤ) 1000000).1 / ((rndZ (m : ℤ) 1000000).2 : ℤ) * 1000000
      + rheZ (rndZ ((rndZ (m : ℤ) 1000000).1 % ((rndZ (m : ℤ) 1000000).2 : ℤ)
          * 1000000) (rndZ (m : ℤ) 1000000).2).1
        (rndZ ((rndZ (m : ℤ) 1000000).1 % ((rndZ (m : ℤ) 1000000).2 : ℤ)
          * 1000000) (rndZ (m : ℤ) 1000000).2).2
  linarith

/-! ## Key packing lemmas -/

theorem lex_cons_iff {d1 d2 : ℕ} {p1 p2 : List ℕ} :
    List.Lex (· < ·) (d1 :: p1) (d2 :: p2)
      ↔ d1 < d2 ∨ (d1 = d2 ∧ List.Lex (· < ·) p1 p2) := by
  constructor
  · intro h
    cases h with
    | rel hr => exact Or.inl hr
    | cons ht => exact Or.inr ⟨rfl, ht⟩
  · rintro (hr | ⟨rfl, ht⟩)
    · exact List.Lex.rel hr
    · exact List.Lex.cons ht

theorem lexNat_irrefl : ∀ l : List ℕ, ¬ List.Lex (· < ·) l l := by
  intro l
  induction l with
  | nil => intro h; cases h
  | cons a rest ih =>
    intro h
    cases h with
    | rel hr => exact absurd hr (lt_irrefl a)
    | cons ht => exact ih ht

theorem lt_div_succ_mul (m B : ℕ) (hB : 0 < B) : m < (m / B + 1) * B := by
  have h1 := Nat.div_add_mod m B
  have h2 := Nat.mod_lt m hB
  calc m = B * (m / B) + m % B := h1.symm
    _ < B * (m / B) + B := by omega
    _ = (m / B + 1) * B := by ring

theorem packBE_lt_iff : ∀ (k : ℕ) {m1 m2 : ℕ}, m1 < 256 ^ k → m2 < 256 ^ k →
    (List.Lex (· < ·) (packBE k m1) (packBE k m2) ↔ m1 < m2) := by
  intro k
  induction k with
  | zero =>
    intro m1 m2 h1 h2
    simp only [pow_zero, Nat.lt_one_iff] at h1 h2
    subst h1
    subst h2
    simp only [packBE]
    constructor
    · intro h
      cases h
    · intro h
      exact absurd h (lt_irrefl 0)
  | succ k ih =>
    intro m1 m2 h1 h2
    have hB : 0 < 256 ^ k := by positivity
    have e1 := Nat.div_add_mod m1 (256 ^ k)
    have e2 := Nat.div_add_mod m2 (256 ^ k)
    have hr1 : m1 % 256 ^ k < 256 ^ k := Nat.mod_lt _ hB
    have hr2 : m2 % 256 ^ k < 256 ^ k := Nat.mod_lt _ hB
    simp only [packBE]
    rw [lex_cons_iff, ih hr1 hr2]
    constructor
    · rintro (hd | ⟨hdeq, hrlt⟩)
      · calc m1 < (m1 / 256 ^ k + 1) * 256 ^ k := lt_div_succ_mul _ _ hB
          _ ≤ m2 / 256 ^ k * 256 ^ k := Nat.mul_le_mul_right _ hd
          _ ≤ m2 := Nat.div_mul_le_self _ _
      · rw [hdeq] at e1
        omega
    · intro hm
      by_cases hd : m1 / 256 ^ k < m2 / 256 ^ k
      · exact Or.inl hd
      · have hdeq : m1 / 256 ^ k = m2 / 256 ^ k :=
          le_antisymm (Nat.div_le_div_right (Nat.le_of_lt hm)) (Nat.le_of_not_lt hd)
        refine Or.inr ⟨hdeq, ?_⟩
        rw [hdeq] at e1
        omega


/-! ## Scan-layer lemmas -/

theorem parseReading_timestamp {e : Entry} {r : Reading}
    (h : parseReading e = some r) :
    r.timestamp = (pyDecodeUs e.key).toNat ∧
      pyDecodeUs e.key ≤ (maxDatetimeUs : ℤ) := by
  cases hd : e.decode? with
  | none => simp [parseReading, hd] at h
  | some p =>
    by_cases hg : pyDecodeUs e.key ≤ (maxDatetimeUs : ℤ)
    · simp only [parseReading, hd, if_pos hg, Option.some.injEq] at h
      exact ⟨by rw [← h], hg⟩
    · simp [parseReading, hd, if_neg hg] at h

theorem parse_key_bound {e : Entry} {r : Reading}
    (h : parseReading e = some r) : e.key ≤ 2 ^ 80 := by
  by_contra hcon
  have hbig := pyDecodeUs_big (not_le.mp hcon)
  have hg := (parseReading_timestamp h).2
  exact absurd (lt_of_lt_of_le hbig hg) (lt_irrefl _)

theorem parse_ts_le {e1 e2 : Entry} {r1 r2 : Reading} (hk : e1.key ≤ e2.key)
    (h1 : parseReading e1 = some r1) (h2 : parseReading e2 = some r2) :
    r1.timestamp ≤ r2.timestamp := by
  obtain ⟨ht1, _⟩ := parseReading_timestamp h1
  obtain ⟨ht2, _⟩ := parseReading_timestamp h2
  rw [ht1, ht2]
  exact Int.toNat_le_toNat (pyDecodeUs_mono hk (parse_key_bound h2))

theorem parseReading_none {e : Entry} (h : e.decode? = none) :
    parseReading e = none := by
  simp [parseReading, h]

theorem collectBackward_eq (l : List Entry) (n : ℕ) :
    collectBackward l n = (l.filterMap parseReading).take n := by
  induction l generalizing n with
  | nil => cases n <;> simp [collectBackward]
  | cons e rest ih =>
    cases n with
    | zero => simp [collectBackward]
    | succ k =>
      cases hp : parseReading e with
      | none => simp [collectBackward, hp, List.filterMap_cons, ih]
      | some r => simp [collectBackward, hp, List.filterMap_cons, ih]

theorem get_recent_readings_ok (s : Store) (n : ℤ) (hn : 0 < n) :
    get_recent_readings (some s) n = .ok (lastN n.toNat (storeReadings s)) := by
  have h : (collectBackward s.reverse n.toNat).reverse
      = lastN n.toNat (storeReadings s) := by
    rw [collectBackward_eq, List.filterMap_reverse, List.take_reverse,
      List.reverse_reverse]
    rfl
  unfold get_recent_readings
  rw [if_neg (by omega : ¬ n ≤ 0)]
  exact congrArg Except.ok h

theorem chronoLe_filterMap {l : List Entry}
    (hl : List.Pairwise (fun e₁ e₂ => e₁.key < e₂.key) l) :
    ChronoLe (l.filterMap parseReading) := by
  refine List.Pairwise.filterMap _ (fun e₁ e₂ h r₁ hr₁ r₂ hr₂ => ?_) hl
  exact parse_ts_le (Nat.le_of_lt h) hr₁ hr₂

theorem seekGE_eq_filter (s : Store) (k : ℕ) (hs : StoreSorted s) :
    seekGE k s = s.filter fun e => decide (k ≤ e.key) := by
  induction s with
  | nil => rfl
  | cons e rest ih =>
    rcases List.pairwise_cons.mp hs with ⟨he, hrest⟩
    by_cases hk : e.key < k
    · rw [show seekGE k (e :: rest) = seekGE k rest by
        simp [seekGE, List.dropWhile_cons, hk]]
      rw [ih hrest, List.filter_cons]
      simp [Nat.not_le.mpr hk]
    · have hk' : k ≤ e.key := Nat.le_of_not_lt hk
      have hall : ∀ x ∈ rest, decide (k ≤ x.key) = true := fun x hx =>
        decide_eq_true (Nat.le_trans hk' (Nat.le_of_lt (he x hx)))
      rw [show seekGE k (e :: rest) = e :: rest by
        simp [seekGE, List.dropWhile_cons, hk]]
      rw [List.filter_cons, List.filter_eq_self.mpr hall]
      simp [hk']

theorem scanUpTo_eq_filter (b : ℕ) (l : List Entry)
    (hl : List.Pairwise (fun e₁ e₂ => e₁.key < e₂.key) l) :
    scanUpTo b l = (l.filter fun e => decide (e.key ≤ b)).filterMap parseReading := by
  induction l with
  | nil => rfl
  | cons e rest ih =>
    rcases List.pairwise_cons.mp hl with ⟨he, hrest⟩
    by_cases hb : b < e.key
    · have hnil : List.filter (fun x => decide (x.key ≤ b)) rest = [] :=
        List.filter_eq_nil_iff.mpr fun x hx => by
          simp only [decide_eq_true_eq]
          exact Nat.not_le.mpr (Nat.lt_trans hb (he x hx))
      rw [show scanUpTo b (e :: rest) = [] by simp [scanUpTo, hb]]
      rw [List.filter_cons]
      simp [Nat.not_le.mpr hb, hnil]
    · have hb' : e.key ≤ b := Nat.le_of_not_lt hb
      rw [List.filter_cons]
      cases hp : parseReading e with
      | none => simp [scanUpTo, Nat.not_lt.mpr hb', hb', hp, ih hrest,
          List.filterMap_cons]
      | some r => simp [scanUpTo, Nat.not_lt.mpr hb', hb', hp, ih hrest,
          List.filterMap_cons]

theorem get_readings_range_ok (s : Store) (start end_ : ℕ)
    (hs : StoreSorted s) (h : start < end_) :
    get_readings_range (some s) start end_
      = .ok (rangeReadings s (pyEncodeUs start).toNat (pyEncodeUs end_).toNat) := by
  have hfs : List.Pairwise (fun e₁ e₂ => e₁.key < e₂.key)
      (s.filter fun e => decide ((pyEncodeUs start).toNat ≤ e.key)) :=
    List.Pairwise.filter _ hs
  have hscan : scanUpTo (pyEncodeUs end_).toNat (seekGE (pyEncodeUs start).toNat s)
      = rangeReadings s (pyEncodeUs start).toNat (pyEncodeUs end_).toNat := by
    rw [seekGE_eq_filter s (pyEncodeUs start).toNat hs,
      scanUpTo_eq_filter (pyEncodeUs end_).toNat _ hfs, List.filter_filter]
    unfold rangeReadings
    congr 1
    apply List.filter_congr
    intro e _
    rw [Bool.decide_and, Bool.and_comm]
  unfold get_readings_range
  rw [if_neg (by omega : ¬ end_ ≤ start)]
  exact congrArg Except.ok hscan

theorem chronoLe_rangeReadings (s : Store) (a b : ℕ) (hs : StoreSorted s) :
    ChronoLe (rangeReadings s a b) :=
  chronoLe_filterMap (List.Pairwise.filter _ hs)

theorem filterMap_parse_filter_isSome (l : List Entry) :
    ((l.filter fun e => e.decode?.isSome).filterMap parseReading)
      = l.filterMap parseReading := by
  induction l with
  | nil => rfl
  | cons e rest ih =>
    cases hd : e.decode? with
    | none =>
      rw [List.filter_cons, List.filterMap_cons]
      simp [hd, parseReading_none hd, ih]
    | some p =>
      rw [List.filter_cons]
      simp only [hd, Option.isSome_some, if_pos]
      rw [List.filterMap_cons, List.filterMap_cons, ih]

theorem storeReadings_dropCorrupt (s : Store) :
    storeReadings (dropCorrupt s) = storeReadings s :=
  filterMap_parse_filter_isSome s

theorem dropCorrupt_sorted {s : Store} (hs : StoreSorted s) :
    StoreSorted (dropCorrupt s) :=
  List.Pairwise.filter _ hs

theorem rangeReadings_dropCorrupt (s : Store) (a b : ℕ) :
    rangeReadings (dropCorrupt s) a b = rangeReadings s a b := by
  unfold rangeReadings dropCorrupt
  rw [List.filter_comm]
  exact filterMap_parse_filter_isSome _

/-! ## Claim theorems: the scan operations (C4, C6, C7, C9, C10) -/

/-- C7 (counterexample).  The last-n scan is not strictly chronologically
ordered for every store: the keys `10^17 + 8` and `10^17 + 15`
microseconds divide to the same float, so `_key_to_timestamp` gives both
entries the same datetime and the returned readings carry equal
timestamps. -/
theorem c7_not_strictly_chronological :
    StoreSorted c7Store ∧
    get_recent_readings (some c7Store) 2
      = .ok [⟨10 ^ 17 + 15, some 1, none, none, 0⟩,
             ⟨10 ^ 17 + 15, some 2, none, none, 0⟩] ∧
    ¬ Chrono [⟨10 ^ 17 + 15, some 1, none, none, 0⟩,
              ⟨10 ^ 17 + 15, some 2, none, none, 0⟩] := by
  refine ⟨by decide, by decide, by decide⟩

/-- C7 (amended).  For every sorted store and every `n`,
`get_recent_readings` fails with `ValueError` for `n ≤ 0`, and for
`n ≥ 1` returns exactly the last `min(n, total)` readings present in the
store (oldest first), hence at most `n` readings, in non-decreasing
timestamp order — non-strict because `_key_to_timestamp` can decode
distinct keys to the same datetime. -/
theorem c7_last_n_spec (s : Store) (n : ℤ) (hs : StoreSorted s) :
    (n ≤ 0 → ∀ db : Option Store,
      get_recent_readings db n = .error .invalidArgument) ∧
    (0 < n →
      get_recent_readings (some s) n = .ok (lastN n.toNat (storeReadings s)) ∧
      (lastN n.toNat (storeReadings s)).length
        = Nat.min n.toNat (storeReadings s).length ∧
      ChronoLe (lastN n.toNat (storeReadings s))) := by
  constructor
  · intro h db
    unfold get_recent_readings
    rw [if_pos h]
  · intro h
    refine ⟨get_recent_readings_ok s n h, ?_, ?_⟩
    · simp only [lastN, List.length_drop, Nat.min_def]
      split <;> omega
    · exact List.Pairwise.sublist (List.drop_sublist _ _) (chronoLe_filterMap hs)

theorem c7_last_n_spec_witness :
    StoreSorted mixedStore ∧
    get_recent_readings (some mixedStore) 2
      = .ok (lastN (2 : ℤ).toNat (storeReadings mixedStore)) :=
  ⟨by decide, ((c7_last_n_spec mixedStore 2 (by decide)).2 (by decide)).1⟩

/-- C10.  Corrupt entries do not consume the `count` budget: whenever the
store holds at least `n` decodable records, exactly `n` readings are
returned, however many corrupt records are interleaved. -/
theorem c10_corrupt_not_counted (s : Store) (n : ℤ) (h0 : 0 < n)
    (hn : n.toNat ≤ (storeReadings s).length) :
    ∃ rs, get_recent_readings (some s) n = .ok rs ∧ rs.length = n.toNat := by
  refine ⟨_, get_recent_readings_ok s n h0, ?_⟩
  simp only [lastN, List.length_drop]
  omega

theorem c10_corrupt_not_counted_witness :
    (0 : ℤ) < 2 ∧ (2 : ℤ).toNat ≤ (storeReadings mixedStore).length ∧
    ∃ rs, get_recent_readings (some mixedStore) 2 = .ok rs ∧
      rs.length = (2 : ℤ).toNat :=
  ⟨by decide, by decide, c10_corrupt_not_counted mixedStore 2 (by decide) (by decide)⟩

/-- C4 (counterexample).  The range bounds are compared only after the
float key encoding: with `start` the datetime at `10^17 + 1` µs, whose
encoded key collapses to `10^17`, the scan returns the reading stored at
key `10^17`, whose timestamp decodes to `10^17` µs — strictly before
`start`, so the result is not confined to `start ≤ t ≤ end`. -/
theorem c4_bounds_not_inclusive :
    get_readings_range (some c4Store) (10 ^ 17 + 1) (10 ^ 17 + 2)
      = .ok [⟨10 ^ 17, some 1, none, none, 0⟩] ∧
    (10 ^ 17 : ℕ) < 10 ^ 17 + 1 := by
  refine ⟨by decide, by decide⟩

/-- C4 (amended).  For a sorted store and `start < end`, the range scan
returns exactly the decodable readings whose stored key lies between the
float-encoded keys `encode(start)` and `encode(end)` (both inclusive), in
non-decreasing timestamp order; inclusiveness in exact microseconds holds
only up to the codec's lossiness.  For `start ≥ end` it fails with
`ValueError` whatever the database handle holds, before any store
access. -/
theorem c4_range_scan_spec (s : Store) (start end_ : ℕ) (hs : StoreSorted s) :
    (start < end_ →
      get_readings_range (some s) start end_
        = .ok (rangeReadings s (pyEncodeUs start).toNat (pyEncodeUs end_).toNat) ∧
      ChronoLe (rangeReadings s (pyEncodeUs start).toNat (pyEncodeUs end_).toNat)) ∧
    (end_ ≤ start → ∀ db : Option Store,
      get_readings_range db start end_ = .error .invalidArgument) := by
  constructor
  · intro h
    exact ⟨get_readings_range_ok s start end_ hs h,
      chronoLe_rangeReadings s _ _ hs⟩
  · intro h db
    unfold get_readings_range
    rw [if_pos h]

theorem c4_range_scan_spec_witness :
    StoreSorted mixedStore ∧ 5 < 12 ∧
    get_readings_range (some mixedStore) 5 12
      = .ok (rangeReadings mixedStore (pyEncodeUs 5).toNat
          (pyEncodeUs 12).toNat) :=
  ⟨by decide, by decide,
    ((c4_range_scan_spec mixedStore 5 12 (by decide)).1 (by decide)).1⟩

/-- C6.  A record that fails to decode is skipped and scanning continues:
both scans give the same result on a store as on the store with its
corrupt entries removed, and with valid arguments a per-record decode
failure never makes a scan raise — the decodable readings are returned. -/
theorem c6_decode_failure_skipped (s : Store) (count : ℤ) (start end_ : ℕ)
    (hs : StoreSorted s) :
    get_recent_readings (some s) count
      = get_recent_readings (some (dropCorrupt s)) count ∧
    get_readings_range (some s) start end_
      = get_readings_range (some (dropCorrupt s)) start end_ ∧
    (0 < count → ∃ rs, get_recent_readings (some s) count = .ok rs) ∧
    (start < end_ → ∃ rs, get_readings_range (some s) start end_ = .ok rs) := by
  refine ⟨?_, ?_, ?_, ?_⟩
  · by_cases hc : count ≤ 0
    · unfold get_recent_readings
      rw [if_pos hc, if_pos hc]
    · have hc' : 0 < count := by omega
      rw [get_recent_readings_ok s count hc',
        get_recent_readings_ok (dropCorrupt s) count hc',
        storeReadings_dropCorrupt]
  · by_cases hr : end_ ≤ start
    · unfold get_readings_range
      rw [if_pos hr, if_pos hr]
    · have hr' : start < end_ := by omega
      rw [get_readings_range_ok s start end_ hs hr',
        get_readings_range_ok (dropCorrupt s) start end_ (dropCorrupt_sorted hs) hr',
        rangeReadings_dropCorrupt]
  · exact fun hc => ⟨_, get_recent_readings_ok s count hc⟩
  · exact fun hr => ⟨_, get_readings_range_ok s start end_ hs hr⟩

theorem c6_decode_failure_skipped_witness :
    StoreSorted mixedStore ∧
    get_recent_readings (some mixedStore) 2
      = get_recent_readings (some (dropCorrupt mixedStore)) 2 :=
  ⟨by decide, (c6_decode_failure_skipped mixedStore 2 0 30 (by decide)).1⟩

/-- C9 (amended).  On a closed reader (`self._db` is `None`), every query
operation whose arguments pass validation fails with `RuntimeError
("Database is not open")` without touching any store; the closed check
runs after argument validation and before any store access. -/
theorem c9_closed_reader_spec (n : ℤ) (start end_ : ℕ) :
    (0 < n → get_recent_readings none n = .error .databaseClosed) ∧
    (start < end_ → get_readings_range none start end_ = .error .databaseClosed) ∧
    get_database_info none = .error .databaseClosed := by
  refine ⟨?_, ?_, rfl⟩
  · intro h
    unfold get_recent_readings
    rw [if_neg (by omega : ¬ n ≤ 0)]
  · intro h
    unfold get_readings_range
    rw [if_neg (by omega : ¬ end_ ≤ start)]

theorem c9_closed_reader_spec_witness :
    (0 : ℤ) < 1 ∧ get_recent_readings none 1 = .error .databaseClosed :=
  ⟨by decide, (c9_closed_reader_spec 1 0 1).1 (by decide)⟩

/-- C9 (counterexample).  The closed state is not checked before any
other work: on a closed reader an invalid argument is reported as
`ValueError`, not as `RuntimeError("Database is not open")`. -/
theorem c9_closed_check_after_validation :
    get_recent_readings none 0 = .error .invalidArgument ∧
    get_readings_range none 7 7 = .error .invalidArgument ∧
    QueryError.invalidArgument ≠ QueryError.databaseClosed := by
  refine ⟨by decide, by decide, by decide⟩

/-! ## Claim theorems: aggregation counterexamples (C2, C3, C5) -/

/-- C2 (violation).  `dropna(how='all')` runs after `reset_index`, when the
`timestamp` column and the integer `count` columns are never null, so a
bucket with zero observed readings in every field is still emitted: over
`c2Store` (readings at 0 s and 9000 s) the 1-hour aggregation emits the
all-empty bucket starting at 3600 s. -/
theorem c2_empty_bucket_emitted :
    ((get_aggregates (some c2Store) 0 9000000000 3600000000).toOption.getD
        []).map (fun r => (r.bucket_start, r.co2_ppm.count,
          r.temperature_c.count, r.humidity_percent.count))
      = [(0, 1, 0, 0), (3600000000, 0, 0, 0), (7200000000, 1, 0, 0)] ∧
    ((get_aggregates (some c2Store) 0 9000000000 3600000000).toOption.getD
        []).any allCountsZero = true := by
  refine ⟨by decide, by decide⟩

/-- C3 (violation).  A non-positive interval is not rejected with
`ValueError` before I/O: the range is fetched first, an empty range
returns successfully without the interval ever being validated, and a
non-empty range makes pandas raise inside the `try`, surfacing as
`RuntimeError` after the store was read. -/
theorem c3_interval_not_validated :
    get_aggregates (some oneStore) 0 2 0 = .error .runtimeError ∧
    get_aggregates (some oneStore) 0 2 (-3600000000) = .error .runtimeError ∧
    get_aggregates (some ([] : Store)) 0 2 0 = .ok [] := by
  refine ⟨by decide, by decide, by decide⟩

/-- C5 (counterexample).  Bucket boundaries are anchored to midnight of
the first reading's day (pandas `origin='start_day'`), not to epoch
multiples of the interval: with a 7-minute interval and one reading one
minute after the midnight opening day 1, the emitted bucket boundary
86400 s is not a multiple of 420 s. -/
theorem c5_not_epoch_aligned :
    bucketStarts (get_aggregates (some c5Store) 86400000000 86500000000
      420000000) = [86400000000] ∧
    86400000000 % 420000000 ≠ 0 := by
  refine ⟨by decide, by decide⟩

/-! ## Aggregation lemmas and the amended anchoring claim (C5) -/

theorem dropnaAll_eq_self (rows : List BucketRow) : dropnaAll rows = rows :=
  List.filter_eq_self.mpr fun r _ => by simp [rowCells]

theorem get_aggregates_empty (s : Store) (a b : ℕ) (Δ : ℤ) (hs : StoreSorted s)
    (hab : a < b)
    (h : rangeReadings s (pyEncodeUs a).toNat (pyEncodeUs b).toNat = []) :
    get_aggregates (some s) a b Δ = .ok [] := by
  unfold get_aggregates
  rw [if_neg (by omega : ¬ b ≤ a), get_readings_range_ok s a b hs hab, h]

theorem get_aggregates_cons (s : Store) (a b : ℕ) (Δ : ℤ) {r0 : Reading}
    {rs : List Reading} (hs : StoreSorted s) (hab : a < b) (hΔ : 0 < Δ)
    (h : rangeReadings s (pyEncodeUs a).toNat (pyEncodeUs b).toNat = r0 :: rs) :
    get_aggregates (some s) a b Δ = .ok (resampleAgg r0 rs Δ.toNat) := by
  unfold get_aggregates
  rw [if_neg (by omega : ¬ b ≤ a), get_readings_range_ok s a b hs hab, h]
  show (if Δ ≤ 0 then Except.error QueryError.runtimeError
      else Except.ok (dropnaAll (resampleAgg r0 rs Δ.toNat)))
    = Except.ok (resampleAgg r0 rs Δ.toNat)
  rw [if_neg (by omega : ¬ Δ ≤ 0), dropnaAll_eq_self]

theorem chronoLe_mem_le_getLast {l : List Reading} (hc : ChronoLe l)
    (hne : l ≠ []) {x : Reading} (hx : x ∈ l) :
    x.timestamp ≤ (l.getLast hne).timestamp := by
  induction l with
  | nil => cases hx
  | cons a rest ih =>
    rcases List.pairwise_cons.mp hc with ⟨ha, hrest⟩
    cases rest with
    | nil =>
      rcases List.mem_singleton.mp hx with rfl
      exact Nat.le_refl _
    | cons bb rest' =>
      rw [List.getLast_cons (List.cons_ne_nil bb rest')]
      rcases List.mem_cons.mp hx with rfl | hx'
      · exact ha _ (List.getLast_mem (List.cons_ne_nil bb rest'))
      · exact ih hrest (List.cons_ne_nil bb rest') hx'

theorem resampleAgg_starts (r0 : Reading) (rs : List Reading) (Δ : ℕ) :
    (resampleAgg r0 rs Δ).map BucketRow.bucket_start
      = (List.range
          ((((r0 :: rs).getLast (List.cons_ne_nil r0 rs)).timestamp
              - originOf r0.timestamp) / Δ
            - (r0.timestamp - originOf r0.timestamp) / Δ + 1)).map
          fun i => originOf r0.timestamp
            + ((r0.timestamp - originOf r0.timestamp) / Δ + i) * Δ := by
  unfold resampleAgg
  rw [List.map_map]
  rfl

theorem mem_resampleAgg_starts {r0 : Reading} {rs : List Reading} {Δ : ℕ}
    {b : ℕ}
    (hle : r0.timestamp ≤ ((r0 :: rs).getLast (List.cons_ne_nil r0 rs)).timestamp) :
    b ∈ (resampleAgg r0 rs Δ).map BucketRow.bucket_start ↔
      ∃ k, (r0.timestamp - originOf r0.timestamp) / Δ ≤ k ∧
        k ≤ (((r0 :: rs).getLast (List.cons_ne_nil r0 rs)).timestamp
              - originOf r0.timestamp) / Δ ∧
        b = originOf r0.timestamp + k * Δ := by
  have hk01 : (r0.timestamp - originOf r0.timestamp) / Δ
      ≤ (((r0 :: rs).getLast (List.cons_ne_nil r0 rs)).timestamp
          - originOf r0.timestamp) / Δ :=
    Nat.div_le_div_right (Nat.sub_le_sub_right hle _)
  rw [resampleAgg_starts, List.mem_map]
  constructor
  · rintro ⟨i, hi, rfl⟩
    rw [List.mem_range] at hi
    exact ⟨(r0.timestamp - originOf r0.timestamp) / Δ + i, Nat.le_add_right _ _,
      by omega, rfl⟩
  · rintro ⟨k, hk0, hk1, rfl⟩
    refine ⟨k - (r0.timestamp - originOf r0.timestamp) / Δ, ?_, ?_⟩
    · rw [List.mem_range]; omega
    · have hk : (r0.timestamp - originOf r0.timestamp) / Δ
          + (k - (r0.timestamp - originOf r0.timestamp) / Δ) = k := by omega
      rw [hk]

theorem filter_range_nested (s : Store) (k0 k1 k2 : ℕ) (h12 : k1 ≤ k2) :
    (s.filter fun e => decide (k0 ≤ e.key ∧ e.key ≤ k1))
      = (s.filter fun e => decide (k0 ≤ e.key ∧ e.key ≤ k2)).filter
          fun e => decide (e.key ≤ k1) := by
  rw [List.filter_filter]
  apply List.filter_congr
  intro e _
  rw [← Bool.decide_and]
  rw [decide_eq_decide]
  omega

theorem rangeReadings_nested (s : Store) (k0 k1 k2 : ℕ) (h12 : k1 ≤ k2) :
    rangeReadings s k0 k1
      = ((s.filter fun e => decide (k0 ≤ e.key ∧ e.key ≤ k2)).filter
          fun e => decide (e.key ≤ k1)).filterMap parseReading := by
  unfold rangeReadings
  rw [filter_range_nested s k0 k1 k2 h12]

theorem rangeReadings_sublist (s : Store) (k0 k1 k2 : ℕ) (h12 : k1 ≤ k2) :
    List.Sublist (rangeReadings s k0 k1) (rangeReadings s k0 k2) := by
  rw [rangeReadings_nested s k0 k1 k2 h12]
  unfold rangeReadings
  exact List.Sublist.filterMap _ (List.filter_sublist _)

theorem filterMap_parse_head_eq {l : List Entry}
    (hl : List.Pairwise (fun e₁ e₂ => e₁.key < e₂.key) l) {c : ℕ}
    {h1 h2 : Reading} {tl1 tl2 : List Reading}
    (hf : (l.filter fun e => decide (e.key ≤ c)).filterMap parseReading
      = h1 :: tl1)
    (hg : l.filterMap parseReading = h2 :: tl2) :
    h1 = h2 := by
  induction l generalizing h2 tl2 with
  | nil => cases hg
  | cons e rest ih =>
    rcases List.pairwise_cons.mp hl with ⟨he, hrest⟩
    by_cases hc' : e.key ≤ c
    · rw [List.filter_cons, if_pos (decide_eq_true hc')] at hf
      cases hp : parseReading e with
      | some r =>
        simp only [List.filterMap_cons, hp] at hf hg
        injection hf with hf1 _
        injection hg with hg1 _
        rw [← hf1, ← hg1]
      | none =>
        simp only [List.filterMap_cons, hp] at hf hg
        exact ih hrest hf hg
    · have hnil : (e :: rest).filter (fun e => decide (e.key ≤ c)) = [] := by
        rw [List.filter_cons, if_neg (by simpa using hc')]
        exact List.filter_eq_nil_iff.mpr fun x hx => by
          simp only [decide_eq_true_eq]
          intro hxc
          exact hc' (Nat.le_trans (Nat.le_of_lt (he x hx)) hxc)
      rw [hnil] at hf
      cases hf

/-- C5 (amended).  Bucket boundaries are anchored to midnight of the first
returned reading's day (pandas `origin='start_day'`), not to the epoch in
general; consequently aggregating `[t0, t2]` and `[t0, t1]` with
`t0 < t1 < t2` over the same store produces identical boundaries for the
overlapping region (every boundary of the narrower query is a boundary of
the wider one), and whenever the interval divides one day evenly the
boundaries are epoch-aligned multiples of the interval. -/
theorem c5_bucket_anchoring_spec (s : Store) (t0 t1 t2 : ℕ) (Δ : ℤ)
    (hs : StoreSorted s) (h01 : t0 < t1) (h12 : t1 < t2) (hΔ : 0 < Δ) :
    (∀ b ∈ bucketStarts (get_aggregates (some s) t0 t1 Δ),
        b ∈ bucketStarts (get_aggregates (some s) t0 t2 Δ)) ∧
    (Δ.toNat ∣ dayUs → ∀ a c : ℕ, a < c →
        ∀ b ∈ bucketStarts (get_aggregates (some s) a c Δ), b % Δ.toNat = 0) := by
  have hdvd_origin : ∀ (hd : Δ.toNat ∣ dayUs) (t : ℕ), Δ.toNat ∣ originOf t :=
    fun hd t => Dvd.dvd.mul_left hd (t / dayUs)
  constructor
  · intro b hb
    have hk12 : (pyEncodeUs t1).toNat ≤ (pyEncodeUs t2).toNat :=
      Int.toNat_le_toNat (pyEncodeUs_mono_all (Nat.le_of_lt h12))
    cases hc1 : rangeReadings s (pyEncodeUs t0).toNat (pyEncodeUs t1).toNat with
    | nil =>
      rw [get_aggregates_empty s t0 t1 Δ hs h01 hc1] at hb
      cases hb
    | cons h1 tl1 =>
      cases hc2 : rangeReadings s (pyEncodeUs t0).toNat (pyEncodeUs t2).toNat with
      | nil =>
        have hsub := rangeReadings_sublist s (pyEncodeUs t0).toNat
          (pyEncodeUs t1).toNat (pyEncodeUs t2).toNat hk12
        rw [hc1, hc2] at hsub
        exact absurd (List.sublist_nil.mp hsub) (List.cons_ne_nil h1 tl1)
      | cons h2 tl2 =>
        have hchrono2 : ChronoLe (h2 :: tl2) := by
          rw [← hc2]
          exact chronoLe_rangeReadings s _ _ hs
        have hchrono1 : ChronoLe (h1 :: tl1) := by
          rw [← hc1]
          exact chronoLe_rangeReadings s _ _ hs
        have hheads : h1 = h2 := by
          have hn := rangeReadings_nested s (pyEncodeUs t0).toNat
            (pyEncodeUs t1).toNat (pyEncodeUs t2).toNat hk12
          rw [hc1] at hn
          have hg : (s.filter fun e => decide ((pyEncodeUs t0).toNat ≤ e.key
              ∧ e.key ≤ (pyEncodeUs t2).toNat)).filterMap parseReading
              = h2 :: tl2 := hc2
          exact filterMap_parse_head_eq (List.Pairwise.filter _ hs) hn.symm hg
        have hsub : (h1 :: tl1).Sublist (h2 :: tl2) := by
          rw [← hc1, ← hc2]
          exact rangeReadings_sublist s _ _ _ hk12
        have hmem1 : (h1 :: tl1).getLast (List.cons_ne_nil h1 tl1) ∈ h2 :: tl2 :=
          hsub.subset (List.getLast_mem _)
        have hlast12 : ((h1 :: tl1).getLast (List.cons_ne_nil h1 tl1)).timestamp
            ≤ ((h2 :: tl2).getLast (List.cons_ne_nil h2 tl2)).timestamp :=
          chronoLe_mem_le_getLast hchrono2 (List.cons_ne_nil h2 tl2) hmem1
        have hle1 : h1.timestamp
            ≤ ((h1 :: tl1).getLast (List.cons_ne_nil h1 tl1)).timestamp :=
          chronoLe_mem_le_getLast hchrono1 (List.cons_ne_nil h1 tl1)
            (List.mem_cons_self h1 tl1)
        have hle2 : h2.timestamp
            ≤ ((h2 :: tl2).getLast (List.cons_ne_nil h2 tl2)).timestamp :=
          chronoLe_mem_le_getLast hchrono2 (List.cons_ne_nil h2 tl2)
            (List.mem_cons_self h2 tl2)
        rw [get_aggregates_cons s t0 t1 Δ hs h01 hΔ hc1] at hb
        rw [get_aggregates_cons s t0 t2 Δ hs (Nat.lt_trans h01 h12) hΔ hc2]
        show b ∈ (resampleAgg h2 tl2 Δ.toNat).map BucketRow.bucket_start
        have hb' : b ∈ (resampleAgg h1 tl1 Δ.toNat).map BucketRow.bucket_start := hb
        rw [mem_resampleAgg_starts hle1] at hb'
        rw [mem_resampleAgg_starts hle2]
        rcases hb' with ⟨k, hk0, hk1, rfl⟩
        subst hheads
        exact ⟨k, hk0,
          Nat.le_trans hk1 (Nat.div_le_div_right (Nat.sub_le_sub_right hlast12 _)),
          rfl⟩
  · intro hd a c hac b hb
    cases hcc : rangeReadings s (pyEncodeUs a).toNat (pyEncodeUs c).toNat with
    | nil =>
      rw [get_aggregates_empty s a c Δ hs hac hcc] at hb
      cases hb
    | cons h0 tl0 =>
      have hchrono : ChronoLe (h0 :: tl0) := by
        rw [← hcc]
        exact chronoLe_rangeReadings s _ _ hs
      have hle : h0.timestamp
          ≤ ((h0 :: tl0).getLast (List.cons_ne_nil h0 tl0)).timestamp :=
        chronoLe_mem_le_getLast hchrono (List.cons_ne_nil h0 tl0)
          (List.mem_cons_self h0 tl0)
      rw [get_aggregates_cons s a c Δ hs hac hΔ hcc] at hb
      have hb' : b ∈ (resampleAgg h0 tl0 Δ.toNat).map BucketRow.bucket_start := hb
      rw [mem_resampleAgg_starts hle] at hb'
      rcases hb' with ⟨k, _, _, rfl⟩
      rcases hdvd_origin hd h0.timestamp with ⟨m, hm⟩
      rw [hm, Nat.mul_comm Δ.toNat m, Nat.add_mul_mod_self_right]
      exact Nat.mul_mod_left m Δ.toNat

theorem c5_bucket_anchoring_spec_witness :
    StoreSorted mixedStore ∧ (1 : ℕ) < 16 ∧ (16 : ℕ) < 26 ∧ (0 : ℤ) < 7 ∧
    (∀ b ∈ bucketStarts (get_aggregates (some mixedStore) 1 16 7),
      b ∈ bucketStarts (get_aggregates (some mixedStore) 1 26 7)) :=
  ⟨by decide, by decide, by decide, by decide,
    (c5_bucket_anchoring_spec mixedStore 1 16 26 7 (by decide) (by decide)
      (by decide) (by decide)).1⟩

/-! ## Claim theorems: the timestamp codec (C1, C8) -/

/-- C8 (counterexample).  The key encoding is not strictly monotone: the
datetimes at `10^17` and `10^17 + 1` microseconds after the epoch receive
the same 8-byte key, because `timestamp()` collapses them to the same
float, so the earlier key is not byte-lexicographically smaller. -/
theorem c8_key_order_collapse :
    (10 ^ 17 : ℕ) < 10 ^ 17 + 1 ∧
    timestamp_to_key (10 ^ 17) = timestamp_to_key (10 ^ 17 + 1) ∧
    ¬ List.Lex (· < ·) (timestamp_to_key (10 ^ 17))
      (timestamp_to_key (10 ^ 17 + 1)) := by
  have heq : timestamp_to_key (10 ^ 17) = timestamp_to_key (10 ^ 17 + 1) := by
    decide
  exact ⟨by decide, heq, fun hcon => lexNat_irrefl _ (heq ▸ hcon)⟩

/-- C8 (amended).  The key encoding is monotone but not strictly so: for
representable `t1 < t2` the encoded integers satisfy
`encode(t1) ≤ encode(t2)`, so the 8-byte big-endian keys are equal or
byte-lexicographically increasing; equality genuinely occurs, so ordered
iteration is non-decreasing rather than strictly chronological in key
order. -/
theorem c8_key_monotone (n1 n2 : ℕ) (h12 : n1 < n2) (h2 : n2 ≤ 2 ^ 61) :
    pyEncodeUs n1 ≤ pyEncodeUs n2 ∧
    (timestamp_to_key n1 = timestamp_to_key n2 ∨
      List.Lex (· < ·) (timestamp_to_key n1) (timestamp_to_key n2)) := by
  have hmono := pyEncodeUs_mono (le_of_lt h12) h2
  refine ⟨hmono, ?_⟩
  have hb1 : (pyEncodeUs n1).toNat < 256 ^ 8 := by
    have hlt := pyEncodeUs_lt_bound (le_trans (le_of_lt h12) h2)
    have hnn := pyEncodeUs_nonneg n1
    omega
  have hb2 : (pyEncodeUs n2).toNat < 256 ^ 8 := by
    have hlt := pyEncodeUs_lt_bound h2
    have hnn := pyEncodeUs_nonneg n2
    omega
  rcases eq_or_lt_of_le (Int.toNat_le_toNat hmono) with heq | hlt
  · left
    unfold timestamp_to_key packBE64
    rw [heq]
  · right
    unfold timestamp_to_key packBE64
    exact (packBE_lt_iff 8 hb1 hb2).mpr hlt

theorem c8_key_monotone_witness :
    (1000000 : ℕ) < 2000000 ∧ (2000000 : ℕ) ≤ 2 ^ 61 ∧
    (pyEncodeUs 1000000 ≤ pyEncodeUs 2000000 ∧
      (timestamp_to_key 1000000 = timestamp_to_key 2000000 ∨
        List.Lex (· < ·) (timestamp_to_key 1000000)
          (timestamp_to_key 2000000))) :=
  ⟨by decide, by decide, c8_key_monotone 1000000 2000000 (by decide) (by decide)⟩

set_option maxRecDepth 40000 in
/-- C1 (violation).  The codec does not round-trip: the datetime exactly
`10^17 + 1` microseconds after the epoch (a representable timestamp,
already at microsecond precision) is encoded through float seconds as the
key `10^17`, and decoding that key yields the timestamp `10^17` — one
microsecond early, though nothing was below microsecond precision. -/
theorem c1_roundtrip_fails :
    key_to_timestamp (timestamp_to_key (10 ^ 17 + 1)) = 10 ^ 17 ∧
    pyEncodeUs (10 ^ 17 + 1) = 10 ^ 17 ∧
    (10 ^ 17 : ℤ) ≠ (10 ^ 17 + 1 : ℕ) := by
  refine ⟨by decide, by decide, by decide⟩

end SensorReader
